import Mathlib

/-!
Verification of the multipart/form-data conformance suite's reference tools
(`tools/run-reference.py`, `tools/generate-raw.py`, `tools/validate-suite.py`,
`tools/lib/multipart_utils.py`) against their natural-language specification.

Modelling conventions:
* Python `bytes` are `List Nat` (each entry a byte value).
* Python `str` is `List Char` (Lean `Char` is a Unicode scalar value, as in CPython).
* Python `find` returning `-1` is `Option Nat` returning `none`.
* Python dicts that the tools build incrementally are association lists in
  insertion order; assignment to an existing key replaces the value in place,
  matching CPython dict semantics.
* Loops are modelled with an explicit fuel argument chosen large enough that
  exhaustion is unreachable (each iteration advances the cursor by at least
  one byte, and the fuel is `length + 1`).
-/

namespace Multipart

-- Bytes are plain naturals (each entry a byte value).

/-- Bytes of CRLF, as in `CRLF = b"\r\n"`. -/
def CRLFb : List Nat := [13, 10]

/-- Bytes of LF, as in `LF = b"\n"`. -/
def LFb : List Nat := [10]

/-! ### UTF-8 codec

CPython's `str.encode("utf-8")` and `bytes.decode("utf-8")` (strict mode):
the decoder rejects continuation errors, overlong forms, surrogates and
out-of-range code points. -/

/-- UTF-8 encoding of a single scalar value. -/
def utf8EncodeChar (c : Char) : List Nat :=
  if c.toNat < 0x80 then [c.toNat]
  else if c.toNat < 0x800 then [0xC0 + c.toNat / 64, 0x80 + c.toNat % 64]
  else if c.toNat < 0x10000 then
    [0xE0 + c.toNat / 4096, 0x80 + c.toNat / 64 % 64, 0x80 + c.toNat % 64]
  else
    [0xF0 + c.toNat / 262144, 0x80 + c.toNat / 4096 % 64, 0x80 + c.toNat / 64 % 64,
      0x80 + c.toNat % 64]

/-- UTF-8 encoding of a string (`s.encode("utf-8")`). -/
def utf8Encode (s : List Char) : List Nat :=
  (s.map utf8EncodeChar).flatten

/-- Is `b` a UTF-8 continuation byte? -/
def isCont (b : Nat) : Bool := 0x80 ≤ b ∧ b < 0xC0

/-- Decode one UTF-8 scalar from the front of a byte stream; `none` on any
malformed prefix (invalid lead byte, bad continuation, overlong form,
surrogate, out of range). -/
def utf8DecodeOne : List Nat → Option (Char × List Nat)
  | [] => none
  | b :: rest =>
    if b < 0x80 then some (Char.ofNat b, rest)
    else if b < 0xC2 then none
    else if b < 0xE0 then
      match rest with
      | b1 :: r =>
        if isCont b1 then some (Char.ofNat ((b - 0xC0) * 64 + (b1 - 0x80)), r) else none
      | [] => none
    else if b < 0xF0 then
      match rest with
      | b1 :: b2 :: r =>
        if isCont b1 ∧ isCont b2 ∧ 0x800 ≤ (b - 0xE0) * 4096 + (b1 - 0x80) * 64 + (b2 - 0x80) ∧
            ¬ (0xD800 ≤ (b - 0xE0) * 4096 + (b1 - 0x80) * 64 + (b2 - 0x80) ∧
               (b - 0xE0) * 4096 + (b1 - 0x80) * 64 + (b2 - 0x80) < 0xE000) then
          some (Char.ofNat ((b - 0xE0) * 4096 + (b1 - 0x80) * 64 + (b2 - 0x80)), r)
        else none
      | _ => none
    else if b < 0xF5 then
      match rest with
      | b1 :: b2 :: b3 :: r =>
        if isCont b1 ∧ isCont b2 ∧ isCont b3 ∧
            0x10000 ≤ (b - 0xF0) * 262144 + (b1 - 0x80) * 4096 + (b2 - 0x80) * 64 + (b3 - 0x80) ∧
            (b - 0xF0) * 262144 + (b1 - 0x80) * 4096 + (b2 - 0x80) * 64 + (b3 - 0x80)
              < 0x110000 then
          some (Char.ofNat
            ((b - 0xF0) * 262144 + (b1 - 0x80) * 4096 + (b2 - 0x80) * 64 + (b3 - 0x80)), r)
        else none
      | _ => none
    else none

/-- Fuel-driven decoding loop; one unit of fuel per decoded scalar, so fuel
equal to the byte count can never run out. -/
def utf8DecodeLoop : Nat → List Nat → Option (List Char)
  | _, [] => some []
  | 0, _ :: _ => none
  | f + 1, b :: rest =>
    match utf8DecodeOne (b :: rest) with
    | some (c, r) => (utf8DecodeLoop f r).map (fun cs => c :: cs)
    | none => none

/-- Strict UTF-8 decoding (`bytes.decode("utf-8")`); `none` models
`UnicodeDecodeError`. -/
def utf8Decode (bs : List Nat) : Option (List Char) :=
  utf8DecodeLoop bs.length bs

/-- Latin-1 decoding (`bytes.decode("latin-1")`), which never fails. -/
def latin1Decode (bs : List Nat) : List Char :=
  bs.map Char.ofNat

theorem utf8EncodeChar_ne_nil (c : Char) : utf8EncodeChar c ≠ [] := by
  unfold utf8EncodeChar
  split_ifs <;> simp

theorem utf8Encode_append (s t : List Char) :
    utf8Encode (s ++ t) = utf8Encode s ++ utf8Encode t := by
  simp [utf8Encode]

theorem utf8Encode_cons (c : Char) (s : List Char) :
    utf8Encode (c :: s) = utf8EncodeChar c ++ utf8Encode s := by
  simp [utf8Encode]

theorem char_valid_ranges (c : Char) :
    c.toNat < 0xD800 ∨ (0xDFFF < c.toNat ∧ c.toNat < 0x110000) := c.valid

/-- Decoding one scalar from an encoded character followed by anything
recovers that character and the remainder. -/
theorem utf8DecodeOne_encodeChar (c : Char) (t : List Nat) :
    utf8DecodeOne (utf8EncodeChar c ++ t) = some (c, t) := by
  have hv := char_valid_ranges c
  unfold utf8EncodeChar
  by_cases h1 : c.toNat < 0x80
  · rw [if_pos h1]
    show utf8DecodeOne (c.toNat :: t) = some (c, t)
    unfold utf8DecodeOne
    dsimp only
    rw [if_pos h1, Char.ofNat_toNat]
  · by_cases h2 : c.toNat < 0x800
    · rw [if_neg h1, if_pos h2]
      show utf8DecodeOne ((0xC0 + c.toNat / 64) :: (0x80 + c.toNat % 64) :: t) = some (c, t)
      have hd : 2 ≤ c.toNat / 64 := by omega
      have hd2 : c.toNat / 64 ≤ 31 := by omega
      unfold utf8DecodeOne
      dsimp only
      have hA : ¬ (0xC0 + c.toNat / 64 < 0x80) := by omega
      have hB : ¬ (0xC0 + c.toNat / 64 < 0xC2) := by omega
      have hC : 0xC0 + c.toNat / 64 < 0xE0 := by omega
      rw [if_neg hA, if_neg hB, if_pos hC]
      have hc : isCont (0x80 + c.toNat % 64) = true := by
        simp only [isCont, decide_eq_true_eq]; omega
      rw [if_pos hc]
      have harg : (0xC0 + c.toNat / 64 - 0xC0) * 64 + (0x80 + c.toNat % 64 - 0x80)
          = c.toNat := by omega
      rw [harg, Char.ofNat_toNat]
    · by_cases h3 : c.toNat < 0x10000
      · rw [if_neg h1, if_neg h2, if_pos h3]
        show utf8DecodeOne ((0xE0 + c.toNat / 4096) :: (0x80 + c.toNat / 64 % 64) ::
          (0x80 + c.toNat % 64) :: t) = some (c, t)
        have hd : c.toNat / 4096 < 16 := by omega
        unfold utf8DecodeOne
        dsimp only
        have hA : ¬ (0xE0 + c.toNat / 4096 < 0x80) := by omega
        have hB : ¬ (0xE0 + c.toNat / 4096 < 0xC2) := by omega
        have hC : ¬ (0xE0 + c.toNat / 4096 < 0xE0) := by omega
        have hD : 0xE0 + c.toNat / 4096 < 0xF0 := by omega
        rw [if_neg hA, if_neg hB, if_neg hC, if_pos hD]
        have harg : (0xE0 + c.toNat / 4096 - 0xE0) * 4096 +
            (0x80 + c.toNat / 64 % 64 - 0x80) * 64 + (0x80 + c.toNat % 64 - 0x80)
            = c.toNat := by omega
        rw [harg]
        have hcond : (isCont (0x80 + c.toNat / 64 % 64) ∧ isCont (0x80 + c.toNat % 64) ∧
            0x800 ≤ c.toNat ∧ ¬ (0xD800 ≤ c.toNat ∧ c.toNat < 0xE000)) := by
          refine ⟨?_, ?_, by omega, by omega⟩
          · simp only [isCont, decide_eq_true_eq]; omega
          · simp only [isCont, decide_eq_true_eq]; omega
        rw [if_pos hcond, Char.ofNat_toNat]
      · rw [if_neg h1, if_neg h2, if_neg h3]
        show utf8DecodeOne ((0xF0 + c.toNat / 262144) :: (0x80 + c.toNat / 4096 % 64) ::
          (0x80 + c.toNat / 64 % 64) :: (0x80 + c.toNat % 64) :: t) = some (c, t)
        have hr : c.toNat < 0x110000 := by omega
        have hd : c.toNat / 262144 < 5 := by omega
        unfold utf8DecodeOne
        dsimp only
        have hA : ¬ (0xF0 + c.toNat / 262144 < 0x80) := by omega
        have hB : ¬ (0xF0 + c.toNat / 262144 < 0xC2) := by omega
        have hC : ¬ (0xF0 + c.toNat / 262144 < 0xE0) := by omega
        have hD : ¬ (0xF0 + c.toNat / 262144 < 0xF0) := by omega
        have hE : 0xF0 + c.toNat / 262144 < 0xF5 := by omega
        rw [if_neg hA, if_neg hB, if_neg hC, if_neg hD, if_pos hE]
        have harg : (0xF0 + c.toNat / 262144 - 0xF0) * 262144 +
            (0x80 + c.toNat / 4096 % 64 - 0x80) * 4096 +
            (0x80 + c.toNat / 64 % 64 - 0x80) * 64 + (0x80 + c.toNat % 64 - 0x80)
            = c.toNat := by omega
        rw [harg]
        have hcond : (isCont (0x80 + c.toNat / 4096 % 64) ∧ isCont (0x80 + c.toNat / 64 % 64) ∧
            isCont (0x80 + c.toNat % 64) ∧ 0x10000 ≤ c.toNat ∧ c.toNat < 0x110000) := by
          refine ⟨?_, ?_, ?_, by omega, hr⟩
          · simp only [isCont, decide_eq_true_eq]; omega
          · simp only [isCont, decide_eq_true_eq]; omega
          · simp only [isCont, decide_eq_true_eq]; omega
        rw [if_pos hcond, Char.ofNat_toNat]

/-- The decode loop inverts encoding whenever it has at least as much fuel
as there are bytes. -/
theorem utf8DecodeLoop_encode (s : List Char) :
    ∀ f, (utf8Encode s).length ≤ f → utf8DecodeLoop f (utf8Encode s) = some s := by
  induction s with
  | nil => intro f _; cases f <;> simp [utf8Encode, utf8DecodeLoop]
  | cons c t ih =>
    intro f hf
    rw [utf8Encode_cons] at hf ⊢
    have hne := utf8EncodeChar_ne_nil c
    obtain ⟨b, bs, hbs⟩ : ∃ b bs, utf8EncodeChar c = b :: bs := by
      cases hcs : utf8EncodeChar c with
      | nil => exact absurd hcs hne
      | cons x xs => exact ⟨x, xs, rfl⟩
    have hlen : 1 ≤ (utf8EncodeChar c).length := by rw [hbs]; simp
    obtain ⟨f', rfl⟩ : ∃ f', f = f' + 1 := by
      refine ⟨f - 1, ?_⟩
      have : 1 ≤ f := by
        calc 1 ≤ (utf8EncodeChar c).length := hlen
        _ ≤ (utf8EncodeChar c ++ utf8Encode t).length := by simp
        _ ≤ f := hf
      omega
    rw [hbs]
    show utf8DecodeLoop (f' + 1) (b :: (bs ++ utf8Encode t)) = some (c :: t)
    rw [utf8DecodeLoop]
    have hone := utf8DecodeOne_encodeChar c (utf8Encode t)
    rw [hbs] at hone
    simp only [List.cons_append] at hone
    rw [hone]
    dsimp only
    have hrec : utf8DecodeLoop f' (utf8Encode t) = some t := by
      apply ih
      have := hf
      simp only [List.length_append, hbs, List.length_cons] at this ⊢
      omega
    rw [hrec]
    rfl

/-- Round-trip: strict UTF-8 decoding inverts encoding. -/
theorem utf8Decode_utf8Encode (s : List Char) : utf8Decode (utf8Encode s) = some s := by
  exact utf8DecodeLoop_encode s _ le_rfl

/-! ### Byte-string searching

`bytes.find(pat, start)` returns the least index `i ≥ start` at which `pat`
occurs, and `-1` (here `none`) if there is none. -/

/-- First index at which `pat` occurs in `hay` (searching from the front). -/
def findZero (pat : List Nat) : List Nat → Option Nat
  | [] => if pat.isPrefixOf [] then some 0 else none
  | b :: t =>
    if pat.isPrefixOf (b :: t) then some 0
    else (findZero pat t).map (fun i => i + 1)

/-- Model of `hay.find(pat, start)`: search only at positions `≥ start`. -/
def pyFind (hay pat : List Nat) (start : Nat) : Option Nat :=
  (findZero pat (hay.drop start)).map (fun i => i + start)

/-- `pat` occurs in `hay` at position `i`. -/
def OccursAt (hay pat : List Nat) (i : Nat) : Prop :=
  pat <+: hay.drop i

instance (hay pat : List Nat) (i : Nat) : Decidable (OccursAt hay pat i) := by
  unfold OccursAt
  infer_instance

/-- Model of Python's `pat in hay` for bytes. -/
def containsSub (hay pat : List Nat) : Bool :=
  (findZero pat hay).isSome

/-- Model of `hay[a:b]` (for `a ≤ b`; all uses in the tools have this form). -/
def pySlice (hay : List Nat) (a b : Nat) : List Nat :=
  (hay.take b).drop a

theorem findZero_eq_some_iff (pat hay : List Nat) (n : Nat) :
    findZero pat hay = some n ↔ (OccursAt hay pat n ∧ ∀ m < n, ¬ OccursAt hay pat m) := by
  induction hay generalizing n with
  | nil =>
    unfold findZero OccursAt
    by_cases h : pat.isPrefixOf [] = true
    · rw [if_pos h]
      have hp : pat <+: ([] : List Nat) := List.isPrefixOf_iff_prefix.1 h
      constructor
      · rintro ⟨rfl⟩
        exact ⟨by simpa using hp, by omega⟩
      · rintro ⟨h1, h2⟩
        by_contra hne
        have hn : 0 < n := Nat.pos_of_ne_zero (by simpa [eq_comm] using hne)
        exact h2 0 hn (by simpa using hp)
    · rw [if_neg h]
      simp only [false_iff, not_and, reduceCtorEq]
      intro h1
      exfalso
      have : pat <+: ([] : List Nat) := by simpa using h1
      exact h (List.isPrefixOf_iff_prefix.2 this)
  | cons b t ih =>
    unfold findZero
    by_cases h : pat.isPrefixOf (b :: t) = true
    · rw [if_pos h]
      have hp : pat <+: (b :: t) := List.isPrefixOf_iff_prefix.1 h
      constructor
      · rintro ⟨rfl⟩
        exact ⟨by simpa [OccursAt] using hp, by omega⟩
      · rintro ⟨h1, h2⟩
        by_contra hne
        have hn : 0 < n := Nat.pos_of_ne_zero (by simpa [eq_comm] using hne)
        exact h2 0 hn (by simpa [OccursAt] using hp)
    · rw [if_neg h]
      constructor
      · intro hmap
        obtain ⟨i, hi, rfl⟩ : ∃ i, findZero pat t = some i ∧ i + 1 = n := by
          cases hf : findZero pat t with
          | none => rw [hf] at hmap; simp at hmap
          | some i => rw [hf] at hmap; simp at hmap; exact ⟨i, rfl, hmap⟩
        obtain ⟨h1, h2⟩ := (ih i).1 hi
        refine ⟨by simpa [OccursAt] using h1, ?_⟩
        intro m hm
        cases m with
        | zero =>
          simp only [OccursAt, List.drop_zero]
          intro hcon
          exact h (List.isPrefixOf_iff_prefix.2 hcon)
        | succ k =>
          have := h2 k (by omega)
          simpa [OccursAt] using this
      · rintro ⟨h1, h2⟩
        cases n with
        | zero =>
          exfalso
          have : pat <+: (b :: t) := by simpa [OccursAt] using h1
          exact h (List.isPrefixOf_iff_prefix.2 this)
        | succ k =>
          have hk : findZero pat t = some k := by
            apply (ih k).2
            refine ⟨by simpa [OccursAt] using h1, ?_⟩
            intro m hm
            have := h2 (m + 1) (by omega)
            simpa [OccursAt] using this
          rw [hk]
          rfl

theorem findZero_eq_none_iff (pat hay : List Nat) :
    findZero pat hay = none ↔ ∀ m, ¬ OccursAt hay pat m := by
  constructor
  · intro h m
    intro hocc
    -- if there is an occurrence there is a least one, so findZero is `some`
    by_cases hall : ∀ k < m, ¬ OccursAt hay pat k
    · rw [(findZero_eq_some_iff pat hay m).2 ⟨hocc, hall⟩] at h
      exact Option.noConfusion h
    · push_neg at hall
      obtain ⟨k, hk, hkocc⟩ := hall
      -- take the least occurrence index
      obtain ⟨j, hjocc, hjmin⟩ := Nat.findX ⟨k, hkocc⟩
      rw [(findZero_eq_some_iff pat hay j).2 ⟨hjocc, fun m hm => hjmin m hm⟩] at h
      exact Option.noConfusion h
  · intro h
    cases hf : findZero pat hay with
    | none => rfl
    | some i =>
      exfalso
      exact h i ((findZero_eq_some_iff pat hay i).1 hf).1

theorem findZero_ge (pat hay : List Nat) (n : Nat) (h : findZero pat hay = some n) :
    OccursAt hay pat n := ((findZero_eq_some_iff pat hay n).1 h).1

theorem pyFind_ge (hay pat : List Nat) (start n : Nat) (h : pyFind hay pat start = some n) :
    start ≤ n := by
  unfold pyFind at h
  cases hf : findZero pat (hay.drop start) with
  | none => rw [hf] at h; exact Option.noConfusion h
  | some i => rw [hf] at h; simp at h; omega

theorem pyFind_zero (hay pat : List Nat) : pyFind hay pat 0 = findZero pat hay := by
  unfold pyFind
  simp

/-- An occurrence inside the prefix of a concatenation (fitting entirely into
the prefix) is an occurrence in the prefix. -/
theorem occursAt_append_left (x z pat : List Nat) (m : Nat)
    (hm : m + pat.length ≤ x.length) (h : OccursAt (x ++ z) pat m) : OccursAt x pat m := by
  unfold OccursAt at h ⊢
  rw [List.prefix_iff_eq_take] at h ⊢
  rw [List.drop_append_of_le_length (by omega),
    List.take_append_of_le_length (by rw [List.length_drop]; omega)] at h
  exact h

/-- Occurrences in a prefix stay occurrences in the concatenation. -/
theorem occursAt_append_of_left (x z pat : List Nat) (m : Nat)
    (h : OccursAt x pat m) (hm : m + pat.length ≤ x.length) : OccursAt (x ++ z) pat m := by
  unfold OccursAt at h ⊢
  rw [List.drop_append_of_le_length (by omega)]
  rw [List.prefix_iff_eq_take] at h ⊢
  rw [List.take_append_of_le_length (by rw [List.length_drop]; omega)]
  exact h

/-- The pattern occurs at the junction of `x ++ pat ++ z`. -/
theorem occursAt_middle (x z pat : List Nat) : OccursAt (x ++ pat ++ z) pat x.length := by
  unfold OccursAt
  rw [List.append_assoc, List.drop_append_of_le_length le_rfl]
  simp

/-! ### Python string helpers

Modelled over `List Char`. `pyLower` implements `str.lower()` on ASCII
letters only; none of the strings the tools compare after lowering contain
characters whose full Unicode lowercasing differs from the ASCII rule in a
way that could change any comparison made by the tools. -/

/-- Characters stripped by `str.strip()` (CPython's `str.isspace()` set). -/
def pyWhitespace (c : Char) : Bool :=
  c.toNat ∈ [9, 10, 11, 12, 13, 28, 29, 30, 31, 32, 0x85, 0xA0, 0x1680,
    0x2000, 0x2001, 0x2002, 0x2003, 0x2004, 0x2005, 0x2006, 0x2007, 0x2008,
    0x2009, 0x200A, 0x2028, 0x2029, 0x202F, 0x205F, 0x3000]

/-- Model of `str.lstrip()`. -/
def pyStripLeft (s : List Char) : List Char := s.dropWhile pyWhitespace

/-- Model of `str.rstrip()`. -/
def pyStripRight (s : List Char) : List Char := (s.reverse.dropWhile pyWhitespace).reverse

/-- Model of `str.strip()`. -/
def pyStrip (s : List Char) : List Char := pyStripLeft (pyStripRight s)

/-- Model of `str.strip('"')`: strip all leading and trailing double quotes. -/
def pyStripQuotes (s : List Char) : List Char :=
  ((s.dropWhile (fun c => c = '"')).reverse.dropWhile (fun c => c = '"')).reverse

/-- ASCII model of `str.lower()` on one character. -/
def pyLowerChar (c : Char) : Char :=
  if 65 ≤ c.toNat ∧ c.toNat ≤ 90 then Char.ofNat (c.toNat + 32) else c

/-- ASCII model of `str.lower()`. -/
def pyLower (s : List Char) : List Char := s.map pyLowerChar

/-- Model of `s.split(sep, 1)` restricted to its first-occurrence split; when
`sep` does not occur it returns `(s, [])` (the tools only call it under an
`in` guard, where the second component is the part after the first `sep`). -/
def pySplitOnceD (sep : Char) : List Char → List Char × List Char
  | [] => ([], [])
  | c :: t =>
    if c = sep then ([], t)
    else
      let p := pySplitOnceD sep t
      (c :: p.1, p.2)

/-- Model of `s.split(sep)` (no maxsplit). -/
def pySplitAll (sep : Char) : List Char → List (List Char)
  | [] => [[]]
  | c :: t =>
    match pySplitAll sep t with
    | h :: r => if c = sep then [] :: h :: r else (c :: h) :: r
    | [] => [[c]]

/-- Model of `s.split(sep, 2)`: at most three pieces. -/
def pySplit2 (s : List Char) (sep : Char) : List (List Char) :=
  if s.contains sep then
    let p := pySplitOnceD sep s
    if p.2.contains sep then
      let q := pySplitOnceD sep p.2
      [p.1, q.1, q.2]
    else [p.1, p.2]
  else [s]

/-- Fuel-driven worker for `str.replace` (left-to-right, non-overlapping). -/
def pyReplaceAux (pat repl : List Char) : Nat → List Char → List Char
  | 0, s => s
  | _ + 1, [] => []
  | f + 1, c :: t =>
    if pat ≠ [] ∧ pat.isPrefixOf (c :: t) then
      repl ++ pyReplaceAux pat repl f (t.drop (pat.length - 1))
    else c :: pyReplaceAux pat repl f t

/-- Model of `s.replace(pat, repl)` for nonempty `pat` (every use in the
tools passes a nonempty literal pattern). -/
def pyReplace (s pat repl : List Char) : List Char := pyReplaceAux pat repl s.length s

/-- Model of `s.startswith(p)` for a single string argument. -/
def pyStartsWith (s p : List Char) : Bool := p.isPrefixOf s

/-- Model of `s.endswith(p)`. -/
def pyEndsWith (s p : List Char) : Bool := p.isSuffixOf s

/-- Model of `line_str.startswith((" ", "\t"))`. -/
def startsWithSpaceTab : List Char → Bool
  | [] => false
  | c :: _ => c = ' ' ∨ c = '\t'

/-! ### Ordered dictionaries (CPython dict semantics)

Association lists in insertion order; assignment to an existing key
replaces its value in place. All dicts built by the tools have unique keys
by construction. -/

/-- Header dictionaries: insertion-ordered `name ↦ value`. -/
abbrev HDict := List (List Char × List Char)

/-- Model of `d[k] = v` on a dict. -/
def dictSet (d : HDict) (k v : List Char) : HDict :=
  if d.any (fun kv => kv.1 = k) then
    d.map (fun kv => if kv.1 = k then (k, v) else kv)
  else d ++ [(k, v)]

/-- Model of `d[k]` (`none` for a missing key). -/
def dictGet (d : HDict) (k : List Char) : Option (List Char) :=
  (d.find? (fun kv => kv.1 = k)).map (fun kv => kv.2)

/-- Model of `list(d.keys())[-1]`. -/
def dictLastKey (d : HDict) : Option (List Char) :=
  d.getLast?.map (fun kv => kv.1)

/-- Model of the lookup loop `for key, value in headers.items(): if
key.lower() == target: ...; break` (run-reference.py lines 98-101 and
134-141): the value of the first entry whose lowered key matches. -/
def findCI (d : HDict) (target : List Char) : Option (List Char) :=
  (d.find? (fun kv => pyLower kv.1 = target)).map (fun kv => kv.2)

/-- Model of the comprehension at run-reference.py line 150,
`dict((k.lower(), v) for k, v in headers.items())` built left to right with
dict-assignment semantics. -/
def lowerHeaders (d : HDict) : HDict :=
  d.foldl (fun acc kv => dictSet acc (pyLower kv.1) kv.2) []

/-! ### Header-parameter tokenizer and Content-Disposition parser

Translated from `multipart_utils.py`: `_tokenize_header_params`,
`parse_content_disposition`, `decode_rfc5987`, `encode_rfc5987`. -/

/-- Worker for `_tokenize_header_params`: state is (tokens, current,
in_quotes, escape_next), processed character by character. -/
def tokenizeAux : List Char → List (List Char) → List Char → Bool → Bool → List (List Char)
  | [], toks, cur, _, _ => if cur ≠ [] then toks ++ [cur] else toks
  | c :: rest, toks, cur, inQ, esc =>
    if esc then tokenizeAux rest toks (cur ++ [c]) inQ false
    else if c = '\\' ∧ inQ then tokenizeAux rest toks (cur ++ [c]) inQ true
    else if c = '"' then tokenizeAux rest toks (cur ++ [c]) (!inQ) esc
    else if c = ';' ∧ ¬ inQ then tokenizeAux rest (toks ++ [cur]) [] inQ esc
    else tokenizeAux rest toks (cur ++ [c]) inQ esc

/-- Model of `_tokenize_header_params`: split on `;` outside double quotes. -/
def tokenizeHeaderParams (s : List Char) : List (List Char) :=
  tokenizeAux s [] [] false false

/-- Result of `parse_content_disposition`. -/
structure CDParams where
  type : Option (List Char)
  name : Option (List Char)
  filename : Option (List Char)
  filenameStar : Option (List Char)
deriving DecidableEq

/-- Model of `decode_rfc5987`, forward declaration of the codec name used by
`parse_content_disposition`; defined below. -/
def hexDigitVal (c : Char) : Nat :=
  if 48 ≤ c.toNat ∧ c.toNat ≤ 57 then c.toNat - 48
  else if 65 ≤ c.toNat ∧ c.toNat ≤ 70 then c.toNat - 55
  else c.toNat - 87

/-- Is `c` an ASCII hex digit (upper or lower), as accepted by `unquote`? -/
def isHexDigit (c : Char) : Bool :=
  (48 ≤ c.toNat ∧ c.toNat ≤ 57) ∨ (65 ≤ c.toNat ∧ c.toNat ≤ 70) ∨
    (97 ≤ c.toNat ∧ c.toNat ≤ 102)

/-- Collect the maximal run of `%XX` hex escapes from the front of the
string, returning the decoded bytes and the remainder. -/
def collectRun : List Char → List Nat × List Char
  | c :: h1 :: h2 :: rest =>
    if c = '%' ∧ isHexDigit h1 ∧ isHexDigit h2 then
      let p := collectRun rest
      ((hexDigitVal h1 * 16 + hexDigitVal h2) :: p.1, p.2)
    else ([], c :: h1 :: h2 :: rest)
  | s => ([], s)

/-- Decoding of a byte run with `errors="replace"`: on invalid UTF-8 the
CPython handler substitutes U+FFFD; modelled here as one replacement char
per byte.  This branch is unreachable for the well-formed runs produced by
`encode_rfc5987`, which is the only place the theorems below evaluate it. -/
def utf8DecodeReplace (bs : List Nat) : List Char :=
  match utf8Decode bs with
  | some cs => cs
  | none => bs.map (fun _ => Char.ofNat 0xFFFD)

/-- Fuel-driven worker for `urllib.parse.unquote(_, encoding="utf-8")`:
non-`%` characters pass through, maximal `%XX` runs are decoded together. -/
def unquoteAux : Nat → List Char → List Char
  | 0, s => s
  | _ + 1, [] => []
  | f + 1, c :: rest =>
    if c = '%' then
      match h : collectRun (c :: rest) with
      | ([], _) => c :: unquoteAux f rest
      | (b :: bs, r) => utf8DecodeReplace (b :: bs) ++ unquoteAux f r
    else c :: unquoteAux f rest

/-- Model of `urllib.parse.unquote(s, encoding="utf-8")` (the only encoding
reached by the theorems below; `decode_rfc5987` falls back to the original
value for any other charset, which conservatively models the
`except Exception` fallback for codecs outside this model). -/
def pyUnquoteUtf8 (s : List Char) : List Char := unquoteAux s.length s

/-- Model of `decode_rfc5987`. -/
def decodeRFC5987 (value : List Char) : List Char :=
  if ¬ value.contains '\x27' then value
  else
    let parts := pySplit2 value '\x27'
    if parts.length ≠ 3 then value
    else
      let charset := parts[0]!
      let encoded := parts[2]!
      let enc := if pyLower charset = [] then "utf-8".data else pyLower charset
      if enc = "utf-8".data then pyUnquoteUtf8 encoded else value

/-- Unreserved bytes never percent-encoded by `urllib.parse.quote`
(`always_safe`: ASCII letters, digits, `_.-~`). -/
def isUnreservedByte (b : Nat) : Bool :=
  (65 ≤ b ∧ b ≤ 90) ∨ (97 ≤ b ∧ b ≤ 122) ∨ (48 ≤ b ∧ b ≤ 57) ∨
    b = 95 ∨ b = 46 ∨ b = 45 ∨ b = 126

/-- Uppercase hex digit for `n < 16`, as emitted by `quote`. -/
def hexUpper (n : Nat) : Char :=
  if n < 10 then Char.ofNat (48 + n) else Char.ofNat (55 + n)

/-- Model of `urllib.parse.quote(s, safe="")`: percent-encode every UTF-8
byte outside the unreserved set, with uppercase hex. -/
def pyQuoteEmpty (s : List Char) : List Char :=
  ((utf8Encode s).map (fun b =>
    if isUnreservedByte b then [Char.ofNat b] else ['%', hexUpper (b / 16), hexUpper (b % 16)])).flatten

/-- Model of `encode_rfc5987` with its default charset. -/
def encodeRFC5987 (value : List Char) : List Char :=
  "utf-8".data ++ ['\x27', '\x27'] ++ pyQuoteEmpty value

/-- Model of `parse_content_disposition`. -/
def parseContentDisposition (headerValue : List Char) : CDParams :=
  if headerValue = [] then ⟨none, none, none, none⟩
  else
    let tokens := tokenizeHeaderParams headerValue
    let typ := tokens.head?.map (fun t => pyLower (pyStrip t))
    let init : CDParams := ⟨typ, none, none, none⟩
    tokens.tail.foldl (fun acc token =>
      let token := pyStrip token
      if ¬ token.contains '=' then acc
      else
        let p := pySplitOnceD '=' token
        let key := pyLower (pyStrip p.1)
        let value := pyStrip p.2
        let value :=
          if pyStartsWith value ['"'] ∧ pyEndsWith value ['"'] then
            pyReplace (pyReplace ((value.drop 1).dropLast) "\\\"".data "\"".data)
              "\\\\".data "\\".data
          else value
        if key = "name".data then { acc with name := some value }
        else if key = "filename".data then { acc with filename := some value }
        else if key = "filename*".data then { acc with filenameStar := some (decodeRFC5987 value) }
        else acc) init

/-! ### Boundary utilities

`parse_boundary` uses two regexes; their semantics (with CPython `re`
backtracking) are translated directly.  `validate_boundary` uses
`re.match(r"^[...]{1,70}$", s)`, where `$` also matches just before a
single final newline; the translation keeps that behaviour. -/

/-- Characters matched by the `re` class `\s` (model: same set as
`str.isspace`, which agrees on every character these tools can meet). -/
def reWhitespace (c : Char) : Bool := pyWhitespace c

/-- Match attempt of `boundary="([^"]+)"` (IGNORECASE) at the current
position: the literal `boundary="`, then a maximal nonempty run of
non-quote characters, then `"`. -/
def quotedBoundaryAt (s : List Char) : Option (List Char) :=
  if pyLower (s.take 10) = "boundary=\"".data then
    let rest := s.drop 10
    let run := rest.takeWhile (fun c => ¬ c = '"')
    if run ≠ [] ∧ (rest.drop run.length).head? = some '"' then some run else none
  else none

/-- Match attempt of `boundary=\s*([^\s;]+)` (IGNORECASE) at the current
position. -/
def unquotedBoundaryAt (s : List Char) : Option (List Char) :=
  if pyLower (s.take 9) = "boundary=".data then
    let rest := s.drop 9
    let afterWs := rest.dropWhile reWhitespace
    let run := afterWs.takeWhile (fun c => ¬ (reWhitespace c ∨ c = ';'))
    if run ≠ [] then some run else none
  else none

/-- `re.search`: first position (left to right) where the pattern matches. -/
def reSearch (attempt : List Char → Option (List Char)) : List Char → Option (List Char)
  | [] => attempt []
  | c :: t =>
    match attempt (c :: t) with
    | some r => some r
    | none => reSearch attempt t

/-- Model of `parse_boundary` from `multipart_utils.py`. -/
def parseBoundary (contentType : List Char) : Option (List Char) :=
  if contentType = [] then none
  else
    match reSearch quotedBoundaryAt contentType with
    | some g => some g
    | none =>
      match reSearch unquotedBoundaryAt contentType with
      | some g => some (pyStripRight g)
      | none => none

/-- The RFC 2046 boundary character class used by `BOUNDARY_CHAR_PATTERN`:
digits, letters, and `'()+_,-./:=?` and space. -/
def boundaryChar (c : Char) : Bool :=
  (48 ≤ c.toNat ∧ c.toNat ≤ 57) ∨ (65 ≤ c.toNat ∧ c.toNat ≤ 90) ∨
    (97 ≤ c.toNat ∧ c.toNat ≤ 122) ∨
    c = '\x27' ∨ c = '(' ∨ c = ')' ∨ c = '+' ∨ c = '_' ∨ c = ',' ∨ c = '-' ∨
    c = '.' ∨ c = '/' ∨ c = ':' ∨ c = '=' ∨ c = '?' ∨ c = ' '

/-- Model of `BOUNDARY_CHAR_PATTERN.match(s)` with
`^[class]{1,70}$`: CPython `$` (without MULTILINE) matches at the end of the
string or just before a newline at the end of the string, so a body of 1-70
class characters optionally followed by one final `\n` matches. -/
def boundaryRegexMatch (s : List Char) : Bool :=
  (1 ≤ s.length ∧ s.length ≤ 70 ∧ s.all boundaryChar) ∨
    (s.getLast? = some '\n' ∧ 1 ≤ s.dropLast.length ∧ s.dropLast.length ≤ 70 ∧
      s.dropLast.all boundaryChar)

/-- Model of `validate_boundary`: `(is_valid, error_message)`. -/
def validateBoundary (boundary : List Char) : Bool × Option (List Char) :=
  if boundary = [] then (false, some "Boundary cannot be empty".data)
  else if boundary.length > 70 then
    (false, some ("Boundary exceeds maximum length of 70".data))
  else if pyEndsWith boundary [' '] then
    (false, some "Boundary cannot end with a space".data)
  else if ¬ boundaryRegexMatch boundary then
    (false, some ("Boundary contains invalid characters".data))
  else (true, none)

/-! ### Data model (`multipart_utils.Part`, `multipart_utils.ParseResult`) -/

/-- One parsed part. -/
structure Part where
  name : List Char
  filename : Option (List Char)
  filenameStar : Option (List Char)
  contentType : Option (List Char)
  charset : Option (List Char)
  headers : HDict
  body : List Nat
deriving DecidableEq

/-- Result of a parse. -/
structure ParseResult where
  valid : Bool
  parts : List Part
  errorType : Option (List Char)
  errorMessage : Option (List Char)
deriving DecidableEq

/-! ### The reference parser (`run-reference.py`, class `MultipartParser`)

`strict` is the constructor flag.  Byte positions mirror the Python cursor
variable `pos`. -/

/-- Model of `MultipartParser._skip_line_ending`. -/
def skipLineEnding (strict : Bool) (body : List Nat) (pos : Nat) : Option Nat :=
  if pos ≥ body.length then none
  else if pySlice body pos (pos + 2) = CRLFb then some (pos + 2)
  else if pySlice body pos (pos + 1) = LFb ∧ ¬ strict then some (pos + 1)
  else if pySlice body pos (pos + 1) = LFb ∧ strict then none
  else some pos

/-- The line-ending selection in `_parse_headers`: given the `find` results
for CRLF and LF, return `(line_end, next_pos)` exactly as the if/elif/else
chain does (`none` models the `return None, pos` branch). -/
def chooseLineEnd (strict : Bool) (crlfPos lfPos : Option Nat) : Option (Nat × Nat) :=
  match crlfPos, lfPos with
  | some ce, none => some (ce, ce + 2)
  | some ce, some le =>
    if ce < le then some (ce, ce + 2)
    else if ¬ strict then some (le, le + 1) else none
  | none, some le => if ¬ strict then some (le, le + 1) else none
  | none, none => none

/-- Model of the `while` loop of `MultipartParser._parse_headers`; the fuel
is spent one unit per header line and the caller passes `length + 1`, which
cannot run out because each iteration advances `pos`. -/
def parseHeadersLoop (strict : Bool) (body : List Nat) :
    Nat → Nat → HDict → Option HDict × Nat
  | 0, pos, _ => (none, pos)
  | f + 1, pos, headers =>
    if pos < body.length then
      let crlfPos := pyFind body CRLFb pos
      let lfPos := pyFind body LFb pos
      if crlfPos = some pos then (some headers, pos + 2)
      else if lfPos = some pos ∧ ¬ strict then (some headers, pos + 1)
      else
        match chooseLineEnd strict crlfPos lfPos with
        | none => (none, pos)
        | some (lineEnd, nextPos) =>
          let line := pySlice body pos lineEnd
          let lineStr :=
            match utf8Decode line with
            | some s => s
            | none => latin1Decode line
          if lineStr.contains ':' then
            let p := pySplitOnceD ':' lineStr
            parseHeadersLoop strict body f nextPos
              (dictSet headers (pyStrip p.1) (pyStrip p.2))
          else if startsWithSpaceTab lineStr ∧ headers ≠ [] then
            match dictLastKey headers with
            | some lastKey =>
              let old := (dictGet headers lastKey).getD []
              parseHeadersLoop strict body f nextPos
                (dictSet headers lastKey (old ++ " ".data ++ pyStrip lineStr))
            | none => (none, pos)
          else (none, pos)
    else (none, pos)

/-- Model of `MultipartParser._parse_headers`. -/
def parseHeaders (strict : Bool) (body : List Nat) (pos : Nat) : Option HDict × Nat :=
  parseHeadersLoop strict body (body.length + 1) pos []

/-- Model of `MultipartParser._find_next_boundary`. -/
def findNextBoundary (strict : Bool) (body : List Nat) (pos : Nat) (delim : List Nat) :
    Option Nat :=
  let crlfPos := pyFind body (CRLFb ++ delim) pos
  let lfPos := if ¬ strict then pyFind body (LFb ++ delim) pos else none
  match crlfPos, lfPos with
  | some ce, none => some ce
  | some ce, some le => if ce ≤ le then some ce else some le
  | none, some le => some le
  | none, none => none

/-- Model of `s.startswith(p)` on bytes. -/
def bytesStartsWith (s p : List Nat) : Bool := p.isPrefixOf s

/-- One match attempt of the regex `charset=([^\s;]+)` (IGNORECASE) at the
current position. -/
def findCharsetAt (s : List Char) : Option (List Char) :=
  if pyLower (s.take 8) = "charset=".data then
    let run := (s.drop 8).takeWhile (fun c => ¬ (reWhitespace c ∨ c = ';'))
    if run ≠ [] then some run else none
  else none

/-- Model of `re.search(r"charset=([^\s;]+)", value, re.IGNORECASE)` followed
by `.group(1).strip('"')`. -/
def findCharset (value : List Char) : Option (List Char) :=
  (reSearch findCharsetAt value).map pyStripQuotes

/-- How the part loop of `MultipartParser.parse` ends: an early `return`
(carrying the accumulator built so far, for inspection) or a `break` / normal
exit with the accumulated parts. -/
inductive LoopExit where
  | result : ParseResult → List Part → LoopExit
  | finished : List Part → LoopExit
deriving DecidableEq

/-- Model of the `while pos < len(body)` part loop of
`MultipartParser.parse`.  Fuel is one unit per part; the caller passes
`length + 1`, which cannot run out since every iteration advances `pos`
(the fuel-exhaustion result uses the tag `fuel_exhausted`, which is not one
of the parser's error types, so the theorems about genuine error types are
unaffected by this unreachable branch). -/
def parseLoop (strict : Bool) (body : List Nat) (delim closeDelim : List Nat) :
    Nat → Nat → List Part → LoopExit
  | 0, _, parts => .result ⟨false, [], some "fuel_exhausted".data, none⟩ parts
  | f + 1, pos, parts =>
    if pos < body.length then
      match parseHeaders strict body pos with
      | (none, _) =>
        .result ⟨false, [], some "invalid_header".data,
          some ("Failed to parse headers at position ".data ++ (toString pos).data)⟩ parts
      | (some headers, headerEnd) =>
        let pos := headerEnd
        match findCI headers "content-disposition".data with
        | none =>
          .result ⟨false, [], some "missing_content_disposition".data,
            some "Missing Content-Disposition header".data⟩ parts
        | some contentDisposition =>
          let cdParams := parseContentDisposition contentDisposition
          match cdParams.name with
          | none =>
            .result ⟨false, [], some "missing_name".data,
              some "Missing name parameter in Content-Disposition".data⟩ parts
          | some nm =>
            match findNextBoundary strict body pos delim with
            | none =>
              .result ⟨false, [], some "truncated".data,
                some "Part body not terminated by boundary".data⟩ parts
            | some bodyEnd =>
              let partBody := pySlice body pos bodyEnd
              let ct :=
                match findCI headers "content-type".data with
                | some v => some (pyStrip ((pySplitAll ';' v).headD []))
                | none => none
              let cs :=
                match findCI headers "content-type".data with
                | some v => findCharset v
                | none => none
              let part : Part :=
                ⟨nm, cdParams.filename, cdParams.filenameStar, ct, cs,
                  lowerHeaders headers, partBody⟩
              let parts := parts ++ [part]
              let pos := bodyEnd
              let pos :=
                if pySlice body pos (pos + 2) = CRLFb then pos + 2
                else if pySlice body pos (pos + 1) = LFb ∧ ¬ strict then pos + 1
                else pos
              if bytesStartsWith (body.drop pos) closeDelim then .finished parts
              else if bytesStartsWith (body.drop pos) delim then
                match skipLineEnding strict body (pos + delim.length) with
                | none => .finished parts
                | some newPos => parseLoop strict body delim closeDelim f newPos parts
              else
                .result ⟨false, [], some "boundary_mismatch".data,
                  some "Expected boundary not found".data⟩ parts
    else .finished parts

/-- Model of `MultipartParser.parse`, additionally reporting (second
component) the parts accumulator at the moment the loop ended — i.e. every
part that had been fully emitted before any failure. -/
def parseWithEmitted (strict : Bool) (body : List Nat) (boundary : List Char) :
    ParseResult × List Part :=
  if boundary = [] then
    (⟨false, [], some "invalid_boundary".data, some "No boundary provided".data⟩, [])
  else
    let delim := utf8Encode ("--".data ++ boundary)
    let closeDelim := utf8Encode ("--".data ++ boundary ++ "--".data)
    match pyFind body delim 0 with
    | none =>
      (⟨false, [], some "boundary_mismatch".data,
        some ("Boundary \x27".data ++ boundary ++ "\x27 not found in body".data)⟩, [])
    | some firstBoundaryPos =>
      match skipLineEnding strict body (firstBoundaryPos + delim.length) with
      | none =>
        (⟨false, [], some "truncated".data,
          some "Unexpected end after first boundary".data⟩, [])
      | some pos0 =>
        match parseLoop strict body delim closeDelim (body.length + 1) pos0 [] with
        | .result r acc => (r, acc)
        | .finished parts =>
          if ¬ containsSub body closeDelim then
            (⟨false, parts, some "missing_terminator".data,
              some "Missing final boundary terminator".data⟩, parts)
          else (⟨true, parts, none, none⟩, parts)

/-- Model of `MultipartParser.parse`. -/
def parse (strict : Bool) (body : List Nat) (boundary : List Char) : ParseResult :=
  (parseWithEmitted strict body boundary).1

/-! ### The generator (`generate-raw.py`, class `MultipartBuilder`) -/

/-- Model of `MultipartBuilder._build_headers`. -/
def buildHeaders (lineEnding : List Nat) (name : List Char) (filename : Option (List Char))
    (contentType : Option (List Char)) (extraHeaders : List (List Char × List Char))
    (filenameStar : Option (List Char)) : List Nat :=
  let cd := "Content-Disposition: form-data; name=\"".data ++ name ++ "\"".data
  let cd :=
    match filename with
    | some fn =>
      let escaped := pyReplace (pyReplace fn "\\".data "\\\\".data) "\"".data "\\\"".data
      cd ++ "; filename=\"".data ++ escaped ++ "\"".data
    | none => cd
  let cd :=
    match filenameStar with
    | some fs => cd ++ "; filename*=".data ++ fs
    | none => cd
  let lines := [utf8Encode cd]
  let lines :=
    match contentType with
    | some ct => if ct ≠ [] then lines ++ [utf8Encode ("Content-Type: ".data ++ ct)] else lines
    | none => lines
  let lines := lines ++ extraHeaders.map (fun kv => utf8Encode (kv.1 ++ ": ".data ++ kv.2))
  (List.intersperse lineEnding lines).flatten ++ lineEnding ++ lineEnding

/-- The per-part emission of `MultipartBuilder.build`: boundary, line
ending, part bytes, and a trailing line ending unless this is the last part
and the final terminator is omitted. -/
def buildPartsBytes (boundaryBytes lineEnding : List Nat) (includeFinal : Bool)
    (parts : List (List Nat)) : List Nat :=
  (parts.enum.map (fun ip =>
    boundaryBytes ++ lineEnding ++ ip.2 ++
      (if ip.1 < parts.length - 1 ∨ includeFinal then lineEnding else []))).flatten

/-- Model of `MultipartBuilder.build`. -/
def build (boundary : List Char) (lineEnding : List Nat) (includeFinalTerminator : Bool)
    (preamble epilogue : Option (List Nat)) (parts : List (List Nat)) : List Nat :=
  let res := match preamble with | some p => p | none => []
  let boundaryBytes := utf8Encode ("--".data ++ boundary)
  let finalBoundaryBytes := utf8Encode ("--".data ++ boundary ++ "--".data)
  let res := res ++ buildPartsBytes boundaryBytes lineEnding includeFinalTerminator parts
  let res := if includeFinalTerminator then res ++ finalBoundaryBytes ++ lineEnding else res
  match epilogue with
  | some e => res ++ e
  | none => res

/-- Model of `MultipartBuilder.add_field` followed by how the part is later
emitted: the rendered headers followed by the value. -/
def addFieldBytes (lineEnding : List Nat) (name : List Char) (value : List Nat)
    (contentType : Option (List Char)) (extraHeaders : List (List Char × List Char)) :
    List Nat :=
  buildHeaders lineEnding name none contentType extraHeaders none ++ value

/-- Model of `MultipartBuilder.add_file` similarly. -/
def addFileBytes (lineEnding : List Nat) (name filename : List Char) (content : List Nat)
    (contentType : Option (List Char)) (filenameStar : Option (List Char))
    (extraHeaders : List (List Char × List Char)) : List Nat :=
  buildHeaders lineEnding name (some filename) contentType extraHeaders filenameStar ++ content

/-! ### The suite validator (`validate-suite.py`)

`validate_test_directory` is modelled over an abstract view of one test
directory: each JSON file is missing, present-but-malformed, or parsed into
the fields the validator reads.  JSON schema validation is modelled in the
environment without the optional `jsonschema` package (the function then
only emits a warning); the claims below pass an empty schema set, making
that branch dead.  Python's local-variable semantics for `headers_data`
(bound only when `json.load` succeeds) are modelled explicitly, and reading
it unbound is the `NameError` outcome. -/

/-- The `expected` object read from `test.json` (fields the validator uses;
`none` models an absent key). -/
structure Expected where
  valid : Option Bool
  errorType : Option (List Char)
deriving DecidableEq

/-- Fields of `test.json` the validator reads. -/
structure TestData where
  id : Option (List Char)
  category : Option (List Char)
  expected : Option Expected
deriving DecidableEq

/-- Fields of `headers.json` the validator reads. -/
structure HeadersData where
  contentType : Option (List Char)
deriving DecidableEq

/-- A JSON file on disk: missing, present but not valid JSON, or parsed. -/
inductive JsonFile (α : Type) where
  | missing : JsonFile α
  | malformed : JsonFile α
  | parsed : α → JsonFile α
deriving DecidableEq

/-- One test directory as the validator sees it. -/
structure TestDir where
  testJson : JsonFile TestData
  headersJson : JsonFile HeadersData
  inputRaw : Option (List Nat)
deriving DecidableEq

/-- The mutable `ValidationResult` state: errors, warnings, tests checked. -/
structure ValidationState where
  errors : List (List Char)
  warnings : List (List Char)
  testsChecked : Nat
deriving DecidableEq

/-- Model of `ValidationResult.add_error`. -/
def addError (r : ValidationState) (path msg : List Char) : ValidationState :=
  ⟨r.errors ++ [path ++ ": ".data ++ msg], r.warnings, r.testsChecked⟩

/-- Model of `ValidationResult.add_warning`. -/
def addWarning (r : ValidationState) (path msg : List Char) : ValidationState :=
  ⟨r.errors, r.warnings ++ [path ++ ": ".data ++ msg], r.testsChecked⟩

/-- Python exceptions that can escape `validate_test_directory`. -/
inductive PyError where
  | nameError : PyError
deriving DecidableEq

/-- Model of `validate_json_schema` in an environment without the optional
`jsonschema` package: it only warns. -/
def validateJsonSchema (path : List Char) (r : ValidationState) : ValidationState :=
  addWarning r path "jsonschema not installed, skipping schema validation".data

/-- Is `c` an ASCII digit? -/
def isAsciiDigit (c : Char) : Bool := 48 ≤ c.toNat ∧ c.toNat ≤ 57

/-- Core of the regex `^\d{3}-[a-z0-9-]+$` without the `$` newline rule. -/
def idFormatCore : List Char → Bool
  | d1 :: d2 :: d3 :: h :: rest =>
    isAsciiDigit d1 ∧ isAsciiDigit d2 ∧ isAsciiDigit d3 ∧ h = '-' ∧ rest ≠ [] ∧
      rest.all (fun c => isAsciiDigit c ∨ (97 ≤ c.toNat ∧ c.toNat ≤ 122) ∨ c = '-')
  | _ => false

/-- Model of `re.match(r"^\d{3}-[a-z0-9-]+$", s)`: as with the boundary
pattern, `$` also matches just before one final newline. -/
def matchesIdFormat (s : List Char) : Bool :=
  idFormatCore s ∨ (s.getLast? = some '\n' ∧ idFormatCore s.dropLast)

/-- The warning message of the final-terminator check. -/
def terminatorWarning : List Char :=
  "Final boundary terminator (--boundary--) not found".data

/-- Model of `validate_test_directory` (validate-suite.py lines 108-213).
Returns the updated state and `seen_ids`, or the Python exception that
escaped. -/
def validateTestDirectory (dir : TestDir) (dirName category : List Char)
    (schemas : List (List Char)) (r0 : ValidationState) (seen : List (List Char)) :
    Except PyError (ValidationState × List (List Char)) :=
  let relPath := dirName
  if dir.testJson = JsonFile.missing then
    Except.ok (addError r0 relPath "Missing test.json".data, seen)
  else
    let r1 := if dir.headersJson = JsonFile.missing then
        addError r0 relPath "Missing headers.json".data else r0
    let r2 := if dir.inputRaw = none then
        addError r1 relPath "Missing input.raw".data else r1
    match dir.testJson with
    | JsonFile.missing => Except.ok (r2, seen)
    | JsonFile.malformed =>
      Except.ok (addError r2 relPath "Invalid JSON in test.json".data, seen)
    | JsonFile.parsed td =>
      let r3 := if schemas.contains "test-case".data then
          validateJsonSchema (relPath ++ "/test.json".data) r2 else r2
      let testId := td.id.getD []
      let r4 := if testId ≠ dirName then
          addError r3 relPath ("ID ".data ++ testId ++ " does not match directory name".data)
        else r3
      let r5 := if seen.contains testId then
          addError r4 relPath ("Duplicate test ID: ".data ++ testId) else r4
      let seen1 := if seen.contains testId then seen else seen ++ [testId]
      let r6 := if ¬ matchesIdFormat testId then
          addError r5 relPath ("Invalid ID format: ".data ++ testId) else r5
      let testCategory := td.category.getD []
      let r7 := if testCategory ≠ category then
          addError r6 relPath ("Category ".data ++ testCategory ++
            " does not match parent directory".data) else r6
      -- the headers.json block; `headers_data` is bound only on parse success
      let hdataOpt : Option HeadersData :=
        match dir.headersJson with
        | JsonFile.parsed hd => some hd
        | _ => none
      let expectedObj := td.expected.getD ⟨none, none⟩
      let expectedValid := expectedObj.valid.getD true
      let r8 :=
        match dir.headersJson with
        | JsonFile.missing => r7
        | JsonFile.malformed => addError r7 relPath "Invalid JSON in headers.json".data
        | JsonFile.parsed hd =>
          let r7a := if schemas.contains "headers".data then
              validateJsonSchema (relPath ++ "/headers.json".data) r7 else r7
          let contentType := hd.contentType.getD []
          match parseBoundary contentType with
          | none => addError r7a relPath "Cannot extract boundary from Content-Type header".data
          | some b =>
            match dir.inputRaw with
            | some raw =>
              if expectedValid then
                if ¬ containsSub raw (utf8Encode ("--".data ++ b)) then
                  addError r7a relPath ("Boundary ".data ++ b ++ " not found in input.raw".data)
                else r7a
              else r7a
            | none => r7a
      -- the final-terminator check (lines 199-211)
      let termRes : Except PyError ValidationState :=
        match dir.inputRaw with
        | some raw =>
          if expectedValid then
            if expectedObj.valid.getD true ∨
                expectedObj.errorType ≠ some "missing_terminator".data then
              match (if dir.headersJson ≠ JsonFile.missing then
                      match hdataOpt with
                      | some hd => Except.ok (hd.contentType.getD [])
                      | none => Except.error PyError.nameError
                    else Except.ok ([] : List Char)) with
              | Except.error e => Except.error e
              | Except.ok ctStr =>
                match parseBoundary ctStr with
                | some b =>
                  if ¬ containsSub raw (utf8Encode ("--".data ++ b ++ "--".data)) then
                    Except.ok (addWarning r8 relPath terminatorWarning)
                  else Except.ok r8
                | none => Except.ok r8
            else Except.ok r8
          else Except.ok r8
        | none => Except.ok r8
      match termRes with
      | Except.error e => Except.error e
      | Except.ok r9 => Except.ok (⟨r9.errors, r9.warnings, r9.testsChecked + 1⟩, seen1)

/-! ### Claim C9: `validate_boundary` acceptance condition -/

/-- Claim C9 as stated: acceptance iff nonempty, length at most 70, no
trailing space, and every character in the RFC 2046 class. -/
def ClaimC9Stated : Prop :=
  ∀ s : List Char, (validateBoundary s).1 = true ↔
    (s ≠ [] ∧ s.length ≤ 70 ∧ pyEndsWith s [' '] = false ∧ s.all boundaryChar = true)

/-- Claim C9 is false on the code: `"a\n"` is accepted by
`validate_boundary` (CPython `$` matches before a final newline) although
`\n` is not in the RFC 2046 class. -/
theorem validateBoundary_c9_counterexample : ¬ ClaimC9Stated := by
  intro h
  have h1 : (validateBoundary ['a', '\n']).1 = true := by decide
  have h2 := (h ['a', '\n']).1 h1
  have h3 : (['a', '\n'].all boundaryChar) = true := h2.2.2.2
  exact absurd h3 (by decide)

/-- Claim C9 amended: acceptance iff nonempty, length at most 70, no
trailing space, and either every character is in the RFC 2046 class or the
string is a nonempty run of class characters followed by one final newline
(an artefact of CPython `$` matching before a trailing newline).  The
length-70 boundary over the class is accepted and the length-71 one is
rejected. -/
theorem validateBoundary_c9_amended :
    (∀ s : List Char, (validateBoundary s).1 = true ↔
      (s ≠ [] ∧ s.length ≤ 70 ∧ pyEndsWith s [' '] = false ∧
        (s.all boundaryChar = true ∨
          (s.getLast? = some '\n' ∧ s.dropLast ≠ [] ∧ s.dropLast.all boundaryChar = true)))) ∧
    (validateBoundary (List.replicate 70 'a')).1 = true ∧
    (validateBoundary (List.replicate 71 'a')).1 = false := by
  refine ⟨?_, by decide, by decide⟩
  intro s
  unfold validateBoundary
  by_cases h1 : s = []
  · rw [if_pos h1]
    simp [h1]
  · rw [if_neg h1]
    by_cases h2 : s.length > 70
    · rw [if_pos h2]
      refine iff_of_false (by simp) ?_
      rintro ⟨-, hlen, -⟩
      omega
    · rw [if_neg h2]
      by_cases h3 : pyEndsWith s [' '] = true
      · rw [if_pos h3]
        refine iff_of_false (by simp) ?_
        rintro ⟨-, -, hsp, -⟩
        rw [h3] at hsp
        exact Bool.noConfusion hsp
      · rw [if_neg h3]
        have hsp : pyEndsWith s [' '] = false := by
          cases hb : pyEndsWith s [' ']
          · rfl
          · exact absurd hb h3
        by_cases h4 : boundaryRegexMatch s = true
        · rw [if_neg (by rw [h4]; simp)]
          refine iff_of_true rfl ⟨h1, by omega, hsp, ?_⟩
          unfold boundaryRegexMatch at h4
          simp only [Bool.or_eq_true, decide_eq_true_eq] at h4
          rcases h4 with ⟨-, -, hall⟩ | ⟨hlast, hne, -, hall⟩
          · exact Or.inl hall
          · refine Or.inr ⟨hlast, ?_, hall⟩
            intro hcon
            rw [hcon] at hne
            simp at hne
        · rw [if_pos (by rw [Bool.not_eq_true] at h4; rw [h4]; simp)]
          refine iff_of_false (by simp) ?_
          rintro ⟨-, -, -, hcase⟩
          apply h4
          unfold boundaryRegexMatch
          simp only [Bool.or_eq_true, decide_eq_true_eq]
          rcases hcase with hall | ⟨hlast, hne, hall⟩
          · refine Or.inl ⟨?_, by omega, hall⟩
            cases s with
            | nil => exact absurd rfl h1
            | cons a t => simp
          · refine Or.inr ⟨hlast, ?_, ?_, hall⟩
            · cases hd : s.dropLast with
              | nil => rw [hd] at hne; exact absurd rfl hne
              | cons a t => simp
            · have : s.dropLast.length = s.length - 1 := by simp
              omega

/-! ### Claim C8: RFC 5987 round trip -/

theorem charToNat_ofNat (n : Nat) (h : n.isValidChar) : (Char.ofNat n).toNat = n := by
  simp only [Char.ofNat, h, dif_pos]
  simp only [Char.ofNatAux, Char.toNat]
  simp [UInt32.toNat, BitVec.toNat_ofNatLt]

/-- Is `c` an ASCII character that `quote` leaves unencoded? -/
def charUnres (c : Char) : Bool := c.toNat < 0x80 ∧ isUnreservedByte c.toNat

/-- The pure percent-encoding of a byte list (every byte escaped). -/
def pctBytes (bs : List Nat) : List Char :=
  (bs.map (fun b => ['%', hexUpper (b / 16), hexUpper (b % 16)])).flatten

theorem utf8EncodeChar_bytes_lt (c : Char) : ∀ b ∈ utf8EncodeChar c, b < 256 := by
  have hv := char_valid_ranges c
  unfold utf8EncodeChar
  split_ifs with h1 h2 h3 <;> intro b hb <;> simp only [List.mem_cons, List.mem_singleton,
    List.not_mem_nil, or_false] at hb
  · omega
  · have := Nat.mod_lt c.toNat (show 0 < 64 by omega)
    rcases hb with rfl | rfl <;> omega
  · have h4 : c.toNat / 4096 < 16 := by omega
    have h5 : c.toNat / 64 % 64 < 64 := Nat.mod_lt _ (by omega)
    have h6 : c.toNat % 64 < 64 := Nat.mod_lt _ (by omega)
    rcases hb with rfl | rfl | rfl <;> omega
  · have h4 : c.toNat / 262144 < 5 := by omega
    have h5 : c.toNat / 4096 % 64 < 64 := Nat.mod_lt _ (by omega)
    have h6 : c.toNat / 64 % 64 < 64 := Nat.mod_lt _ (by omega)
    have h7 : c.toNat % 64 < 64 := Nat.mod_lt _ (by omega)
    rcases hb with rfl | rfl | rfl | rfl <;> omega

theorem utf8Encode_bytes_lt (s : List Char) : ∀ b ∈ utf8Encode s, b < 256 := by
  intro b hb
  unfold utf8Encode at hb
  simp only [List.mem_flatten, List.mem_map] at hb
  obtain ⟨l, ⟨c, _, rfl⟩, hbl⟩ := hb
  exact utf8EncodeChar_bytes_lt c b hbl

theorem hexUpper_facts (n : Nat) (h : n < 16) :
    isHexDigit (hexUpper n) = true ∧ hexDigitVal (hexUpper n) = n := by
  interval_cases n <;> exact ⟨by decide, by decide⟩

theorem hexUpper_ne_pct (n : Nat) (h : n < 16) : hexUpper n ≠ '%' := by
  interval_cases n <;> decide

/-- Quote for an unreserved character passes it through. -/
theorem pyQuoteEmpty_cons_unres (c : Char) (t : List Char) (h : charUnres c = true) :
    pyQuoteEmpty (c :: t) = c :: pyQuoteEmpty t := by
  unfold charUnres at h
  simp only [Bool.and_eq_true, decide_eq_true_eq] at h
  obtain ⟨h1, h2⟩ := h
  unfold pyQuoteEmpty
  rw [utf8Encode_cons]
  have he : utf8EncodeChar c = [c.toNat] := by
    unfold utf8EncodeChar
    rw [if_pos h1]
  rw [he]
  simp only [List.cons_append, List.nil_append, List.map_cons, List.flatten_cons]
  rw [if_pos h2, Char.ofNat_toNat]
  rfl

theorem isUnreservedByte_false_of_ge (b : Nat) (h : 127 ≤ b) : isUnreservedByte b = false := by
  unfold isUnreservedByte
  simp only [decide_eq_false_iff_not]
  omega

theorem charUnres_eq_false_iff (c : Char) :
    charUnres c = false ↔ ¬ (c.toNat < 0x80 ∧ isUnreservedByte c.toNat = true) := by
  simp [charUnres]

/-- Every byte of the encoding of a non-unreserved character is escaped. -/
theorem utf8EncodeChar_bytes_not_unres (c : Char) (h : charUnres c = false) :
    ∀ b ∈ utf8EncodeChar c, isUnreservedByte b = false := by
  rw [charUnres_eq_false_iff] at h
  intro b hb
  by_cases h1 : c.toNat < 0x80
  · have he : utf8EncodeChar c = [c.toNat] := by
      unfold utf8EncodeChar
      rw [if_pos h1]
    rw [he] at hb
    simp only [List.mem_singleton] at hb
    subst hb
    cases hu : isUnreservedByte c.toNat
    · rfl
    · exact absurd ⟨h1, hu⟩ h
  · have hge : 128 ≤ b := by
      unfold utf8EncodeChar at hb
      rw [if_neg h1] at hb
      split_ifs at hb with h2 h3 <;>
        simp only [List.mem_cons, List.mem_singleton, List.not_mem_nil, or_false] at hb
      · rcases hb with rfl | rfl <;> omega
      · rcases hb with rfl | rfl | rfl <;> omega
      · rcases hb with rfl | rfl | rfl | rfl <;> omega
    exact isUnreservedByte_false_of_ge b (by omega)

/-- `pctBytes` distributes over append. -/
theorem pctBytes_append (a b : List Nat) : pctBytes (a ++ b) = pctBytes a ++ pctBytes b := by
  simp [pctBytes]

/-- Mapping the quote byte-encoder over all-escaped bytes gives `pctBytes`. -/
theorem map_quote_eq_pct (bs : List Nat) (h : ∀ b ∈ bs, isUnreservedByte b = false) :
    ((bs.map (fun b => if isUnreservedByte b then [Char.ofNat b]
        else ['%', hexUpper (b / 16), hexUpper (b % 16)])).flatten) = pctBytes bs := by
  induction bs with
  | nil => rfl
  | cons b bt ih =>
    simp only [List.map_cons, List.flatten_cons, pctBytes]
    rw [if_neg (by rw [h b (by simp)]; simp)]
    rw [ih (fun x hx => h x (by simp [hx]))]
    simp [pctBytes]

/-- Quote for a non-unreserved character escapes every byte. -/
theorem pyQuoteEmpty_cons_nonunres (c : Char) (t : List Char) (h : charUnres c = false) :
    pyQuoteEmpty (c :: t) = pctBytes (utf8EncodeChar c) ++ pyQuoteEmpty t := by
  unfold pyQuoteEmpty
  rw [utf8Encode_cons, List.map_append, List.flatten_append]
  congr 1
  exact map_quote_eq_pct _ (utf8EncodeChar_bytes_not_unres c h)

/-- Quote distributes over append. -/
theorem pyQuoteEmpty_append (s t : List Char) :
    pyQuoteEmpty (s ++ t) = pyQuoteEmpty s ++ pyQuoteEmpty t := by
  unfold pyQuoteEmpty
  rw [utf8Encode_append, List.map_append, List.flatten_append]

/-- Quote of an all-escaped string is `pctBytes` of its UTF-8 bytes. -/
theorem pyQuoteEmpty_eq_pct (p : List Char) (h : ∀ x ∈ p, charUnres x = false) :
    pyQuoteEmpty p = pctBytes (utf8Encode p) := by
  induction p with
  | nil => rfl
  | cons c t ih =>
    rw [pyQuoteEmpty_cons_nonunres c t (h c (by simp)), utf8Encode_cons, pctBytes_append,
      ih (fun x hx => h x (by simp [hx]))]

theorem collectRun_cons_pct (c h1 h2 : Char) (rest : List Char)
    (hc : c = '%' ∧ isHexDigit h1 = true ∧ isHexDigit h2 = true) :
    collectRun (c :: h1 :: h2 :: rest) =
      ((hexDigitVal h1 * 16 + hexDigitVal h2) :: (collectRun rest).1, (collectRun rest).2) := by
  conv_lhs => unfold collectRun
  rw [if_pos hc]

theorem collectRun_pct (bs : List Nat) (z : List Char) (hb : ∀ b ∈ bs, b < 256) :
    collectRun (pctBytes bs ++ z) = (bs ++ (collectRun z).1, (collectRun z).2) := by
  induction bs with
  | nil => simp [pctBytes]
  | cons b bt ih =>
    have hblt : b < 256 := hb b (by simp)
    have hd : b / 16 < 16 := by omega
    have hm : b % 16 < 16 := by omega
    have hpct : pctBytes (b :: bt) ++ z =
        '%' :: hexUpper (b / 16) :: hexUpper (b % 16) :: (pctBytes bt ++ z) := by
      simp [pctBytes]
    rw [hpct, collectRun_cons_pct _ _ _ _ ⟨rfl, (hexUpper_facts _ hd).1, (hexUpper_facts _ hm).1⟩]
    rw [ih (fun x hx => hb x (by simp [hx]))]
    simp only [List.cons_append]
    congr 2
    rw [(hexUpper_facts _ hd).2, (hexUpper_facts _ hm).2]
    omega

theorem collectRun_no_pct (s : List Char) (h : ∀ c t, s = c :: t → c ≠ '%') :
    collectRun s = ([], s) := by
  match s with
  | [] => rfl
  | [c] => rfl
  | [c, h1] => rfl
  | c :: h1 :: h2 :: rest =>
    unfold collectRun
    rw [if_neg]
    rintro ⟨hc, -, -⟩
    exact h c _ rfl hc

theorem charUnres_ne_pct (c : Char) (h : charUnres c = true) : c ≠ '%' := by
  intro hc
  subst hc
  exact absurd h (by decide)

/-- The quote of a string whose head (if any) is unreserved starts with no
percent run. -/
theorem collectRun_quote_unresHead (r : List Char)
    (h : ∀ c t, r = c :: t → charUnres c = true) :
    collectRun (pyQuoteEmpty r) = ([], pyQuoteEmpty r) := by
  cases r with
  | nil =>
    have hq : pyQuoteEmpty [] = [] := by simp [pyQuoteEmpty, utf8Encode]
    rw [hq]
    rfl
  | cons c t =>
    have hu := h c t rfl
    rw [pyQuoteEmpty_cons_unres c t hu]
    apply collectRun_no_pct
    rintro c' t' hct
    have hcc : c' = c := ((List.cons.inj hct).1).symm
    rw [hcc]
    exact charUnres_ne_pct c hu

/-- Unquoting a quoted string recovers it (the core of the C8 round trip),
by strong induction on the length. -/
theorem unquoteAux_pyQuoteEmpty :
    ∀ n s f, s.length ≤ n → (pyQuoteEmpty s).length ≤ f →
      unquoteAux f (pyQuoteEmpty s) = s := by
  intro n
  induction n with
  | zero =>
    intro s f hs _
    have hnil : s = [] := List.length_eq_zero.1 (by omega)
    subst hnil
    have hq : pyQuoteEmpty [] = [] := by simp [pyQuoteEmpty, utf8Encode]
    rw [hq]
    cases f <;> rfl
  | succ n ih =>
    intro s f hs hf
    cases s with
    | nil =>
      have hq : pyQuoteEmpty [] = [] := by simp [pyQuoteEmpty, utf8Encode]
      rw [hq]
      cases f <;> rfl
    | cons c t =>
      by_cases hu : charUnres c = true
      · rw [pyQuoteEmpty_cons_unres c t hu] at hf ⊢
        obtain ⟨f', rfl⟩ : ∃ f', f = f' + 1 := by
          refine ⟨f - 1, ?_⟩
          simp only [List.length_cons] at hf
          omega
        unfold unquoteAux
        rw [if_neg (charUnres_ne_pct c hu)]
        rw [ih t f' (by simpa using hs) (by simpa using hf)]
      · -- the maximal escaped block `p` is decoded as one percent run
        rw [Bool.not_eq_true] at hu
        have hsplit := List.takeWhile_append_dropWhile (fun x => ! charUnres x) (c :: t)
        set p := (c :: t).takeWhile (fun x => ! charUnres x) with hp
        set r := (c :: t).dropWhile (fun x => ! charUnres x) with hr
        have hpcons : p = c :: t.takeWhile (fun x => ! charUnres x) := by
          rw [hp, List.takeWhile_cons, if_pos (by simp [hu])]
        have hpall : ∀ x ∈ p, charUnres x = false := by
          intro x hx
          rw [hp] at hx
          have := List.mem_takeWhile_imp hx
          simpa using this
        have hrhead : ∀ c' t', r = c' :: t' → charUnres c' = true := by
          intro c' t' hh
          have hnot := List.head?_dropWhile_not (fun x => ! charUnres x) (c :: t)
          rw [← hr, hh] at hnot
          simp only [List.head?_cons] at hnot
          simpa using hnot
        have hlen : p.length + r.length = t.length + 1 := by
          have := congrArg List.length hsplit
          simpa using this
        have hq : pyQuoteEmpty (c :: t) = pctBytes (utf8Encode p) ++ pyQuoteEmpty r := by
          conv_lhs => rw [← hsplit]
          rw [pyQuoteEmpty_append, pyQuoteEmpty_eq_pct p hpall]
        obtain ⟨b, bs, hbs⟩ : ∃ b bs, utf8Encode p = b :: bs := by
          cases hcs : utf8Encode p with
          | nil =>
            exfalso
            rw [hpcons] at hcs
            rw [utf8Encode_cons] at hcs
            exact utf8EncodeChar_ne_nil c (List.append_eq_nil.1 hcs).1
          | cons x xs => exact ⟨x, xs, rfl⟩
        have hshape : pyQuoteEmpty (c :: t) =
            '%' :: hexUpper (b / 16) :: hexUpper (b % 16) :: (pctBytes bs ++ pyQuoteEmpty r) := by
          rw [hq, hbs]
          simp [pctBytes]
        obtain ⟨f', rfl⟩ : ∃ f', f = f' + 1 := by
          refine ⟨f - 1, ?_⟩
          rw [hshape] at hf
          simp only [List.length_cons] at hf
          omega
        rw [hshape]
        unfold unquoteAux
        rw [if_pos rfl]
        have hcr : collectRun ('%' :: hexUpper (b / 16) :: hexUpper (b % 16) ::
            (pctBytes bs ++ pyQuoteEmpty r)) = (b :: bs, pyQuoteEmpty r) := by
          have hstep : ('%' : Char) :: hexUpper (b / 16) :: hexUpper (b % 16) ::
              (pctBytes bs ++ pyQuoteEmpty r) = pctBytes (b :: bs) ++ pyQuoteEmpty r := by
            simp [pctBytes]
          rw [hstep, collectRun_pct (b :: bs) _ (by rw [← hbs]; exact utf8Encode_bytes_lt p),
            collectRun_quote_unresHead r hrhead]
          simp
        rw [hcr]
        dsimp only
        have hdec : utf8DecodeReplace (b :: bs) = p := by
          unfold utf8DecodeReplace
          rw [← hbs, utf8Decode_utf8Encode]
        have hrq : unquoteAux f' (pyQuoteEmpty r) = r := by
          apply ih r f'
          · have hppos : 1 ≤ p.length := by rw [hpcons]; simp
            have hs' : t.length + 1 ≤ n + 1 := by simpa using hs
            omega
          · rw [hshape] at hf
            simp only [List.length_cons, List.length_append] at hf
            omega
        rw [hdec, hrq, ← hsplit]

theorem pySplitOnceD_sep_head (sep : Char) (l : List Char) :
    pySplitOnceD sep (sep :: l) = ([], l) := by
  unfold pySplitOnceD
  rw [if_pos rfl]

theorem pySplitOnceD_append (sep : Char) (a b : List Char) (h : ∀ c ∈ a, c ≠ sep) :
    pySplitOnceD sep (a ++ sep :: b) = (a, b) := by
  induction a with
  | nil => simpa using pySplitOnceD_sep_head sep b
  | cons c t ih =>
    simp only [List.cons_append]
    unfold pySplitOnceD
    rw [if_neg (h c (by simp))]
    rw [ih (fun x hx => h x (by simp [hx]))]

theorem pyQuoteEmpty_no_quote (s : List Char) : ∀ x ∈ pyQuoteEmpty s, x ≠ '\x27' := by
  intro x hx
  unfold pyQuoteEmpty at hx
  simp only [List.mem_flatten, List.mem_map] at hx
  obtain ⟨l, ⟨b, hb, rfl⟩, hxl⟩ := hx
  have hblt : b < 256 := utf8Encode_bytes_lt s b hb
  by_cases hu : isUnreservedByte b = true
  · rw [if_pos hu] at hxl
    simp only [List.mem_singleton] at hxl
    subst hxl
    intro hcon
    have hb39 : b = 39 := by
      have := charToNat_ofNat b (Or.inl (by omega))
      rw [hcon] at this
      simpa using this.symm
    subst hb39
    exact absurd hu (by decide)
  · rw [if_neg hu] at hxl
    have hd : b / 16 < 16 := by omega
    have hm : b % 16 < 16 := by omega
    simp only [List.mem_cons, List.mem_singleton, List.not_mem_nil, or_false] at hxl
    rcases hxl with rfl | rfl | rfl
    · decide
    · revert hd
      generalize b / 16 = n
      intro hd
      interval_cases n <;> decide
    · revert hm
      generalize b % 16 = n
      intro hm
      interval_cases n <;> decide

/-- Claim C8: decoding an RFC 5987-encoded value with the default charset
recovers it, for every string. -/
theorem decodeRFC5987_encodeRFC5987 (s : List Char) :
    decodeRFC5987 (encodeRFC5987 s) = s := by
  have hV : encodeRFC5987 s = "utf-8".data ++ '\x27' :: '\x27' :: pyQuoteEmpty s := by
    unfold encodeRFC5987
    simp
  have hmem : '\x27' ∈ encodeRFC5987 s := by
    rw [hV]
    simp
  have hcontains : (encodeRFC5987 s).contains '\x27' = true := by
    simpa using hmem
  have hsplit1 : pySplitOnceD '\x27' (encodeRFC5987 s) = ("utf-8".data, '\x27' :: pyQuoteEmpty s) := by
    rw [hV]
    exact pySplitOnceD_append _ _ _ (by decide)
  have hsplit2 : pySplit2 (encodeRFC5987 s) '\x27' =
      ["utf-8".data, [], pyQuoteEmpty s] := by
    unfold pySplit2
    rw [if_pos hcontains, hsplit1]
    simp only
    rw [if_pos (by simp), pySplitOnceD_sep_head]
  unfold decodeRFC5987
  rw [if_neg (not_not_intro hcontains), hsplit2]
  simp only [List.length_cons, List.length_nil]
  rw [if_neg (by omega)]
  have hget0 : (["utf-8".data, [], pyQuoteEmpty s] : List (List Char))[0]! = "utf-8".data := rfl
  have hget2 : (["utf-8".data, [], pyQuoteEmpty s] : List (List Char))[2]! = pyQuoteEmpty s := by
    rfl
  rw [hget0, hget2]
  rw [if_pos (show (if pyLower "utf-8".data = ([] : List Char) then "utf-8".data
    else pyLower "utf-8".data) = "utf-8".data by decide)]
  unfold pyUnquoteUtf8
  exact unquoteAux_pyQuoteEmpty s.length s _ le_rfl le_rfl

/-! ### Claim C10: totality of the per-directory validator check -/

/-- Claim C10 is wrong about the code: on a directory whose `headers.json`
exists but is not valid JSON while `test.json` declares an expected-valid
result and `input.raw` exists, `validate_test_directory` reaches line 207
with the local `headers_data` unbound and raises `NameError`
(`UnboundLocalError`) instead of returning normally. -/
theorem validateTestDirectory_c10_raises :
    validateTestDirectory
      ⟨JsonFile.parsed ⟨some "001-x".data, some "basic".data, some ⟨some true, none⟩⟩,
        JsonFile.malformed, some (utf8Encode "--B\r\nstuff".data)⟩
      "001-x".data "basic".data [] ⟨[], [], 0⟩ [] = Except.error PyError.nameError := rfl

/-! ### Claim C7: the final-terminator warning -/

/-- Claim C7 as stated: for every test case with `input.raw` present whose
expectation is valid, or invalid with an `error_type` other than
`missing_terminator`, absence of the closing delimiter from the raw input
produces the terminator warning. -/
def ClaimC7Stated : Prop :=
  ∀ (td : TestData) (hd : HeadersData) (raw : List Nat) (dirName category : List Char)
    (r : ValidationState) (seen : List (List Char)) (b : List Char),
    parseBoundary (hd.contentType.getD []) = some b →
    containsSub raw (utf8Encode ("--".data ++ b ++ "--".data)) = false →
    ((td.expected.getD ⟨none, none⟩).valid.getD true = true ∨
      ((td.expected.getD ⟨none, none⟩).valid.getD true = false ∧
        (td.expected.getD ⟨none, none⟩).errorType ≠ some "missing_terminator".data)) →
    ∃ res seen',
      validateTestDirectory ⟨JsonFile.parsed td, JsonFile.parsed hd, some raw⟩
        dirName category [] r seen = Except.ok (res, seen') ∧
      (dirName ++ ": ".data ++ terminatorWarning) ∈ res.warnings

/-- Claim C7 is false on the code: for expected-invalid cases the whole
terminator check is skipped (it is guarded by `expected.valid`), so no
warning is emitted even when `error_type` is not `missing_terminator`. -/
theorem validateTestDirectory_c7_counterexample : ¬ ClaimC7Stated := by
  intro h
  have h2 := h ⟨some "001-x".data, some "basic".data,
      some ⟨some false, some "boundary_mismatch".data⟩⟩
    ⟨some "multipart/form-data; boundary=B".data⟩
    (utf8Encode "--B\r\nstuff".data) "001-x".data "basic".data ⟨[], [], 0⟩ []
    "B".data (by decide) (by decide)
    (Or.inr ⟨by decide, by decide⟩)
  obtain ⟨res, seen', heq, hmem⟩ := h2
  have hval : validateTestDirectory
      ⟨JsonFile.parsed ⟨some "001-x".data, some "basic".data,
          some ⟨some false, some "boundary_mismatch".data⟩⟩,
        JsonFile.parsed ⟨some "multipart/form-data; boundary=B".data⟩,
        some (utf8Encode "--B\r\nstuff".data)⟩
      "001-x".data "basic".data [] ⟨[], [], 0⟩ [] =
      Except.ok (⟨[], [], 1⟩, ["001-x".data]) := rfl
  rw [hval] at heq
  have hres : res = ⟨[], [], 1⟩ := by
    have := (Except.ok.inj heq)
    exact (Prod.mk.inj this).1.symm
  rw [hres] at hmem
  exact absurd hmem (by decide)

theorem addError_warnings (r : ValidationState) (p m : List Char) :
    (addError r p m).warnings = r.warnings := rfl

/-- Claim C7 amended: the terminator check runs only for expected-valid
cases.  (a) For an expected-valid case with a parseable boundary whose
closing delimiter is absent from `input.raw`, the warning is emitted (and
the function returns normally).  (b) For an expected-invalid case — whatever
its `error_type` — the warnings are left untouched: the check is skipped
entirely. -/
theorem validateTestDirectory_c7_amended :
    (∀ (td : TestData) (hd : HeadersData) (raw : List Nat) (dirName category : List Char)
      (r : ValidationState) (seen : List (List Char)) (b : List Char),
      (td.expected.getD ⟨none, none⟩).valid.getD true = true →
      parseBoundary (hd.contentType.getD []) = some b →
      containsSub raw (utf8Encode ("--".data ++ b ++ "--".data)) = false →
      ∃ res seen',
        validateTestDirectory ⟨JsonFile.parsed td, JsonFile.parsed hd, some raw⟩
          dirName category [] r seen = Except.ok (res, seen') ∧
        (dirName ++ ": ".data ++ terminatorWarning) ∈ res.warnings) ∧
    (∀ (td : TestData) (hj : JsonFile HeadersData) (rawOpt : Option (List Nat))
      (dirName category : List Char) (r : ValidationState) (seen : List (List Char))
      (res : ValidationState) (seen' : List (List Char)),
      (td.expected.getD ⟨none, none⟩).valid.getD true = false →
      validateTestDirectory ⟨JsonFile.parsed td, hj, rawOpt⟩ dirName category [] r seen
        = Except.ok (res, seen') →
      res.warnings = r.warnings) := by
  constructor
  · intro td hd raw dirName category r seen b hval heq hterm
    unfold validateTestDirectory
    simp only [reduceCtorEq, if_false, hval, heq, hterm, if_true, true_or, ne_eq,
      not_false_eq_true, ite_true, List.contains_nil, Bool.false_eq_true, not_true_eq_false,
      Bool.true_eq_false]
    refine ⟨_, _, rfl, ?_⟩
    simp [addWarning, terminatorWarning]
  · intro td hj rawOpt dirName category r seen res seen' hval heq
    unfold validateTestDirectory at heq
    simp only [reduceCtorEq, if_false, hval, List.contains_nil, Bool.false_eq_true, ite_false,
      ne_eq, not_false_eq_true, if_true, ite_true, Bool.true_eq_false, not_true_eq_false] at heq
    cases hj <;> cases rawOpt <;>
      simp only [reduceCtorEq, ite_true, ite_false, if_true, if_false] at heq
    all_goals (
      obtain ⟨h1, h2⟩ := Prod.mk.inj (Except.ok.inj heq)
      rw [← h1]
      simp only [apply_ite ValidationState.warnings, addError_warnings, ite_self]
      try (split <;> simp only [apply_ite ValidationState.warnings, addError_warnings, ite_self]))

/-- Witness for the C7 amended theorem at a concrete expected-valid test
directory lacking the closing delimiter. -/
theorem validateTestDirectory_c7_witness :
    ∃ res seen',
      validateTestDirectory
        ⟨JsonFile.parsed ⟨some "001-x".data, some "basic".data, some ⟨some true, none⟩⟩,
          JsonFile.parsed ⟨some "multipart/form-data; boundary=B".data⟩,
          some (utf8Encode "--B\r\nstuff".data)⟩
        "001-x".data "basic".data [] ⟨[], [], 0⟩ [] = Except.ok (res, seen') ∧
      ("001-x".data ++ ": ".data ++ terminatorWarning) ∈ res.warnings :=
  validateTestDirectory_c7_amended.1
    ⟨some "001-x".data, some "basic".data, some ⟨some true, none⟩⟩
    ⟨some "multipart/form-data; boundary=B".data⟩
    (utf8Encode "--B\r\nstuff".data) "001-x".data "basic".data ⟨[], [], 0⟩ []
    "B".data (by decide) (by decide) (by decide)

/-! ### Positioned-find helper lemmas (used for C5 and C3) -/

/-- `find` lands exactly at the junction when the region before it is free
of occurrences. -/
theorem pyFind_decomp (body pat : List Nat) (pos : Nat) (A B : List Nat)
    (hdrop : body.drop pos = A ++ B) (hpre : pat <+: B)
    (hno : ∀ m, m < A.length → ¬ OccursAt (A ++ B) pat m) :
    pyFind body pat pos = some (A.length + pos) := by
  unfold pyFind
  rw [hdrop]
  have hocc : OccursAt (A ++ B) pat A.length := by
    unfold OccursAt
    rw [List.drop_left]
    exact hpre
  rw [(findZero_eq_some_iff pat (A ++ B) A.length).2 ⟨hocc, hno⟩]
  rfl

/-- No pattern starting with `x` occurs inside a region not containing `x`. -/
theorem no_occursAt_of_head_not_mem (A B : List Nat) (x : Nat) (xs : List Nat)
    (hx : x ∉ A) : ∀ m, m < A.length → ¬ OccursAt (A ++ B) (x :: xs) m := by
  intro m hm hocc
  obtain ⟨l, hl⟩ := hocc
  rw [List.drop_append_of_le_length (by omega)] at hl
  cases hA : A.drop m with
  | nil =>
    have := congrArg List.length hA
    simp only [List.length_drop, List.length_nil] at this
    omega
  | cons a t =>
    rw [hA] at hl
    simp only [List.cons_append] at hl
    have hax : x = a := (List.cons.inj hl).1
    apply hx
    rw [hax]
    exact List.drop_subset m A (hA ▸ List.mem_cons_self a t)

/-- Slicing from the cursor up to the junction recovers the region. -/
theorem pySlice_of_drop (body : List Nat) (pos : Nat) (A B : List Nat)
    (hdrop : body.drop pos = A ++ B) :
    pySlice body pos (A.length + pos) = A := by
  unfold pySlice
  rw [List.drop_take, hdrop, Nat.add_sub_cancel, List.take_left]

/-- A cursor with a nonempty remainder is in range. -/
theorem pos_lt_of_drop_cons (body : List Nat) (pos : Nat) (A B : List Nat)
    (hdrop : body.drop pos = A ++ B) (hA : A ≠ []) : pos < body.length := by
  by_contra hcon
  have : body.drop pos = [] := List.drop_eq_nil_of_le (by omega)
  rw [this] at hdrop
  exact hA (List.append_eq_nil.1 hdrop.symm).1

/-- The UTF-8 bytes of a character other than CR and LF are neither 13 nor
10 (multi-byte sequences only use bytes at least 0x80). -/
theorem utf8EncodeChar_no_cr_lf (c : Char) (hc : c ≠ '\r' ∧ c ≠ '\n') :
    ∀ b ∈ utf8EncodeChar c, b ≠ 13 ∧ b ≠ 10 := by
  intro b hb
  by_cases h1 : c.toNat < 0x80
  · have he : utf8EncodeChar c = [c.toNat] := by
      unfold utf8EncodeChar
      rw [if_pos h1]
    rw [he] at hb
    simp only [List.mem_singleton] at hb
    subst hb
    constructor
    · intro h13
      apply hc.1
      have : c = Char.ofNat c.toNat := (Char.ofNat_toNat c).symm
      rw [this, h13]
    · intro h10
      apply hc.2
      have : c = Char.ofNat c.toNat := (Char.ofNat_toNat c).symm
      rw [this, h10]
  · have hge : 128 ≤ b := by
      unfold utf8EncodeChar at hb
      rw [if_neg h1] at hb
      split_ifs at hb with h2 h3 <;>
        simp only [List.mem_cons, List.mem_singleton, List.not_mem_nil, or_false] at hb
      · rcases hb with rfl | rfl <;> omega
      · rcases hb with rfl | rfl | rfl <;> omega
      · rcases hb with rfl | rfl | rfl | rfl <;> omega
    omega

/-- Lifted to whole strings. -/
theorem utf8Encode_no_cr_lf (line : List Char) (hc : ∀ c ∈ line, c ≠ '\r' ∧ c ≠ '\n') :
    ∀ b ∈ utf8Encode line, b ≠ 13 ∧ b ≠ 10 := by
  intro b hb
  unfold utf8Encode at hb
  simp only [List.mem_flatten, List.mem_map] at hb
  obtain ⟨l, ⟨c, hcl, rfl⟩, hbl⟩ := hb
  exact utf8EncodeChar_no_cr_lf c (hc c hcl) b hbl

/-- The two header-line `find`s for a CR/LF-free line followed by CRLF. -/
theorem headerLine_finds (body : List Nat) (pos : Nat) (line : List Char) (rest : List Nat)
    (hdrop : body.drop pos = utf8Encode line ++ (CRLFb ++ rest))
    (hsafe : ∀ c ∈ line, c ≠ '\r' ∧ c ≠ '\n') :
    pyFind body CRLFb pos = some ((utf8Encode line).length + pos) ∧
    pyFind body LFb pos = some ((utf8Encode line ++ [13]).length + pos) := by
  have hbytes := utf8Encode_no_cr_lf line hsafe
  constructor
  · refine pyFind_decomp body CRLFb pos (utf8Encode line) (CRLFb ++ rest) hdrop
      (List.prefix_append _ _) ?_
    exact no_occursAt_of_head_not_mem _ _ 13 [10]
      (fun hmem => (hbytes 13 hmem).1 rfl)
  · have hdrop' : body.drop pos = (utf8Encode line ++ [13]) ++ (10 :: rest) := by
      rw [hdrop]
      simp [CRLFb]
    refine pyFind_decomp body LFb pos (utf8Encode line ++ [13]) (10 :: rest) hdrop'
      (by simp [LFb]) ?_
    refine no_occursAt_of_head_not_mem _ _ 10 [] ?_
    intro hmem
    rcases List.mem_append.1 hmem with hmem | hmem
    · exact (hbytes 10 hmem).2 rfl
    · simp at hmem

/-! ### Claim C5: obsolete header folding -/

/-- Claim C5 as stated: a header line beginning with SP or HTAB, with at
least one header already parsed, is treated as a continuation — including
such lines that contain a colon. -/
def ClaimC5Stated : Prop :=
  ∀ (strict : Bool) (body : List Nat) (pos : Nat) (line : List Char) (rest : List Nat)
    (acc : HDict) (f : Nat),
    body.drop pos = utf8Encode line ++ (CRLFb ++ rest) →
    (∀ c ∈ line, c ≠ '\r' ∧ c ≠ '\n') →
    startsWithSpaceTab line = true →
    acc ≠ [] →
    parseHeadersLoop strict body (f + 1) pos acc =
      parseHeadersLoop strict body f ((utf8Encode line).length + pos + 2)
        (dictSet acc ((dictLastKey acc).getD [])
          (((dictGet acc ((dictLastKey acc).getD [])).getD []) ++ " ".data ++ pyStrip line))

/-- Claim C5 is false on the code: the `":" in line` test precedes the
continuation test, so a space-led line containing a colon is parsed as a
fresh header (with the leading whitespace stripped from its name), not as a
continuation. -/
theorem parseHeaders_c5_counterexample : ¬ ClaimC5Stated := by
  intro h
  have h2 := h true (utf8Encode " b: c\r\n\r\n".data) 0 " b: c".data CRLFb
    [("X".data, "a".data)] 3 (by decide) (by decide) (by decide) (by decide)
  exact absurd h2 (by decide)

/-- Claim C5 amended: the rule applies only to lines with no colon.  A
header line beginning with SP or HTAB that contains no colon, when at least
one header exists, updates the dictionary at its last key by appending a
single space and the stripped line to the previous value, and parsing
continues after the line's CRLF. -/
theorem parseHeaders_c5_amended (strict : Bool) (body : List Nat) (pos : Nat)
    (line : List Char) (rest : List Nat) (acc : HDict) (f : Nat)
    (hdrop : body.drop pos = utf8Encode line ++ (CRLFb ++ rest))
    (hsafe : ∀ c ∈ line, c ≠ '\r' ∧ c ≠ '\n')
    (hsp : startsWithSpaceTab line = true)
    (hacc : acc ≠ [])
    (hcolon : line.contains ':' = false) :
    parseHeadersLoop strict body (f + 1) pos acc =
      parseHeadersLoop strict body f ((utf8Encode line).length + pos + 2)
        (dictSet acc ((dictLastKey acc).getD [])
          (((dictGet acc ((dictLastKey acc).getD [])).getD []) ++ " ".data ++ pyStrip line)) := by
  obtain ⟨hcrlf, hlf⟩ := headerLine_finds body pos line rest hdrop hsafe
  have hne : line ≠ [] := by
    cases line with
    | nil => exact absurd hsp (by decide)
    | cons c t => simp
  have hlen : 1 ≤ (utf8Encode line).length := by
    cases hl : line with
    | nil => exact absurd hl hne
    | cons c t =>
      rw [utf8Encode_cons]
      cases he : utf8EncodeChar c with
      | nil => exact absurd he (utf8EncodeChar_ne_nil c)
      | cons x xs => simp
  have hpos : pos < body.length := by
    refine pos_lt_of_drop_cons body pos (utf8Encode line) (CRLFb ++ rest) hdrop ?_
    intro hcon
    rw [hcon] at hlen
    simp at hlen
  conv_lhs => rw [parseHeadersLoop]
  rw [if_pos hpos, hcrlf, hlf]
  have hc1 : ¬ (some ((utf8Encode line).length + pos) = some pos) := by
    intro hcon
    rw [Option.some.injEq] at hcon
    omega
  rw [if_neg hc1]
  have hc2 : ¬ (some ((utf8Encode line ++ [13]).length + pos) = some pos ∧ ¬ strict = true) := by
    rintro ⟨hcon, -⟩
    rw [Option.some.injEq] at hcon
    simp only [List.length_append, List.length_cons, List.length_nil] at hcon
    omega
  rw [if_neg hc2]
  have hchoose : chooseLineEnd strict (some ((utf8Encode line).length + pos))
      (some ((utf8Encode line ++ [13]).length + pos)) =
      some ((utf8Encode line).length + pos, (utf8Encode line).length + pos + 2) := by
    unfold chooseLineEnd
    dsimp only
    have hlt : (utf8Encode line).length + pos < (utf8Encode line ++ [13]).length + pos := by
      simp
    rw [if_pos hlt]
  rw [hchoose]
  simp only
  have hslice : pySlice body pos ((utf8Encode line).length + pos) = utf8Encode line :=
    pySlice_of_drop body pos _ _ hdrop
  rw [hslice, utf8Decode_utf8Encode]
  simp only
  rw [if_neg (by rw [hcolon]; simp), if_pos (by exact ⟨hsp, hacc⟩)]
  have hlast : dictLastKey acc = some ((dictLastKey acc).getD []) := by
    cases hl : acc.getLast? with
    | none =>
      exfalso
      exact hacc (List.getLast?_eq_none_iff.1 (by simpa [dictLastKey] using hl))
    | some kv => simp [dictLastKey, hl]
  rw [hlast]
  dsimp only
  simp only [Option.getD_some]

/-- Witness for the C5 amended theorem at a concrete folded header line. -/
theorem parseHeaders_c5_witness :
    parseHeadersLoop true (utf8Encode " b c\r\n\r\n".data) (3 + 1) 0 [("X".data, "a".data)] =
      parseHeadersLoop true (utf8Encode " b c\r\n\r\n".data) 3
        ((utf8Encode " b c".data).length + 0 + 2)
        (dictSet [("X".data, "a".data)] ((dictLastKey [("X".data, "a".data)]).getD [])
          (((dictGet [("X".data, "a".data)]
              ((dictLastKey [("X".data, "a".data)]).getD [])).getD [])
            ++ " ".data ++ pyStrip " b c".data)) :=
  parseHeaders_c5_amended true (utf8Encode " b c\r\n\r\n".data) 0 " b c".data CRLFb
    [("X".data, "a".data)] 3 (by decide) (by decide) (by decide) (by decide) (by decide)

/-! ### Claim C6: duplicate headers -/

/-- Claim C6 as stated, over a part's parsed header dictionary `d` (the
Content-Disposition lookup is the loop modelled by `findCI`, and the part's
preserved mapping is `lowerHeaders d`, exactly as `MultipartParser.parse`
stores it): with two case-insensitively equal names at positions `i < j`,
the later value wins the lookup and both occurrences remain present. -/
def ClaimC6Stated : Prop :=
  ∀ (d : HDict) (i j : Fin d.length), i.val < j.val →
    pyLower (d.get i).1 = "content-disposition".data →
    pyLower (d.get j).1 = "content-disposition".data →
    findCI d "content-disposition".data = some (d.get j).2 ∧
    (pyLower (d.get i).1, (d.get i).2) ∈ lowerHeaders d ∧
    (pyLower (d.get j).1, (d.get j).2) ∈ lowerHeaders d

/-- Claim C6 is false on the code: the lookup loop breaks at the first
case-insensitive match, and the lowercased mapping built at line 150 keeps
only the last value for a lowercase key, so the earlier occurrence does not
remain. -/
theorem headers_c6_counterexample : ¬ ClaimC6Stated := by
  intro h
  have h2 := h [("Content-Disposition".data, "a".data), ("content-disposition".data, "b".data)]
    ⟨0, by decide⟩ ⟨1, by decide⟩ (by decide) (by decide) (by decide)
  obtain ⟨h1, -, -⟩ := h2
  exact absurd h1 (by decide)

theorem dictGet_dictSet_self (d : HDict) (k v : List Char) :
    dictGet (dictSet d k v) k = some v := by
  unfold dictSet
  by_cases hany : d.any (fun kv => kv.1 = k) = true
  · rw [if_pos hany]
    induction d with
    | nil => simp at hany
    | cons p t ih =>
      by_cases hp : p.1 = k
      · simp only [List.map_cons]
        rw [if_pos (by simpa using hp)]
        simp [dictGet, List.find?]
      · simp only [List.map_cons]
        rw [if_neg (by simpa using hp)]
        simp only [List.any_cons, Bool.or_eq_true] at hany
        rcases hany with hh | ht
        · exact absurd (by simpa using hh) hp
        · have := ih ht
          simp only [dictGet, List.find?] at this ⊢
          rw [show (decide (p.1 = k)) = false by simpa using hp]
          exact this
  · rw [if_neg hany]
    have hnone : d.find? (fun kv => kv.1 = k) = none := by
      rw [List.find?_eq_none]
      intro kv hkv
      intro hcon
      apply hany
      rw [List.any_eq_true]
      exact ⟨kv, hkv, hcon⟩
    unfold dictGet
    rw [List.find?_append, hnone]
    simp [List.find?]

theorem dictGet_dictSet_other (d : HDict) (k v k' : List Char) (h : k' ≠ k) :
    dictGet (dictSet d k v) k' = dictGet d k' := by
  unfold dictSet
  by_cases hany : d.any (fun kv => kv.1 = k) = true
  · rw [if_pos hany]
    clear hany
    induction d with
    | nil => rfl
    | cons p t ih =>
      simp only [List.map_cons]
      by_cases hp : p.1 = k
      · rw [if_pos (by simpa using hp)]
        simp only [dictGet, List.find?]
        rw [show (decide ((k, v).1 = k')) = false from by
          simp only [decide_eq_false_iff_not]
          intro hc
          exact h hc.symm]
        rw [show (decide (p.1 = k')) = false from by
          simp only [decide_eq_false_iff_not]
          rw [hp]
          intro hc
          exact h hc.symm]
        exact ih
      · rw [if_neg (by simpa using hp)]
        simp only [dictGet, List.find?]
        cases hd : decide (p.1 = k') with
        | true => rfl
        | false => exact ih
  · rw [if_neg hany]
    unfold dictGet
    rw [List.find?_append]
    cases hd : d.find? (fun kv => kv.1 = k') with
    | some kv => simp
    | none =>
      simp only [Option.none_or]
      rw [show (List.find? (fun kv => decide (kv.1 = k')) [(k, v)]) = none from by
        rw [List.find?_eq_none]
        intro kv hkv
        simp only [List.mem_singleton] at hkv
        subst hkv
        simp only [decide_eq_true_eq]
        intro hc
        exact h hc.symm]

theorem dictGet_lowerHeaders_aux (suf : List (List Char × List Char)) (acc : HDict)
    (target : List Char) (hnone : ∀ kv ∈ suf, pyLower kv.1 ≠ target) :
    dictGet (suf.foldl (fun a kv => dictSet a (pyLower kv.1) kv.2) acc) target =
      dictGet acc target := by
  induction suf generalizing acc with
  | nil => rfl
  | cons p t ih =>
    simp only [List.foldl_cons]
    rw [ih (dictSet acc (pyLower p.1) p.2) (fun kv hkv => hnone kv (List.mem_cons_of_mem p hkv))]
    exact dictGet_dictSet_other acc (pyLower p.1) p.2 target
      (fun hc => hnone p (List.mem_cons_self p t) hc.symm)

/-- Claim C6 amended, part 2: in the part's lowercased header mapping, a
lowercase name maps to the value of the last occurrence. -/
theorem lowerHeaders_last_wins (pre suf : List (List Char × List Char))
    (k v : List Char) (target : List Char)
    (hk : pyLower k = target) (hnone : ∀ kv ∈ suf, pyLower kv.1 ≠ target) :
    dictGet (lowerHeaders (pre ++ (k, v) :: suf)) target = some v := by
  unfold lowerHeaders
  rw [List.foldl_append]
  simp only [List.foldl_cons]
  rw [dictGet_lowerHeaders_aux suf _ target hnone, hk]
  exact dictGet_dictSet_self _ target v

/-- Claim C6 amended, part 1: the Content-Disposition lookup returns the
value of the first case-insensitive match. -/
theorem findCI_first_wins (pre suf : List (List Char × List Char)) (k v : List Char)
    (target : List Char) (hk : pyLower k = target)
    (hpre : ∀ kv ∈ pre, pyLower kv.1 ≠ target) :
    findCI (pre ++ (k, v) :: suf) target = some v := by
  induction pre with
  | nil =>
    simp only [List.nil_append]
    unfold findCI
    have hfind : List.find? (fun kv => decide (pyLower kv.1 = target)) ((k, v) :: suf)
        = some (k, v) := by
      apply List.find?_cons_of_pos
      simpa using hk
    rw [hfind]
    rfl
  | cons p t ih =>
    simp only [List.cons_append]
    unfold findCI
    have hfind : List.find? (fun kv => decide (pyLower kv.1 = target))
        (p :: (t ++ (k, v) :: suf)) =
        List.find? (fun kv => decide (pyLower kv.1 = target)) (t ++ (k, v) :: suf) := by
      apply List.find?_cons_of_neg
      simp only [decide_eq_true_eq]
      exact hpre p (List.mem_cons_self p t)
    rw [hfind]
    exact ih (fun kv hkv => hpre kv (List.mem_cons_of_mem p hkv))

/-- Claim C6 amended: with duplicate case-insensitively equal header names,
the FIRST occurrence's value is used on the case-insensitive lookup (the
loop breaks at the first match), and the part's lowercased header mapping
retains, per lowercase name, only the LAST occurrence's value. -/
theorem headers_c6_amended :
    (∀ (pre suf : List (List Char × List Char)) (k v target : List Char),
      pyLower k = target → (∀ kv ∈ pre, pyLower kv.1 ≠ target) →
      findCI (pre ++ (k, v) :: suf) target = some v) ∧
    (∀ (pre suf : List (List Char × List Char)) (k v target : List Char),
      pyLower k = target → (∀ kv ∈ suf, pyLower kv.1 ≠ target) →
      dictGet (lowerHeaders (pre ++ (k, v) :: suf)) target = some v) :=
  ⟨fun pre suf k v target hk hpre => findCI_first_wins pre suf k v target hk hpre,
   fun pre suf k v target hk hnone => lowerHeaders_last_wins pre suf k v target hk hnone⟩

/-- Witness for the C6 amended theorem on a concrete duplicate pair. -/
theorem headers_c6_witness :
    findCI [("Content-Disposition".data, "a".data), ("content-disposition".data, "b".data)]
      "content-disposition".data = some "a".data ∧
    dictGet (lowerHeaders [("Content-Disposition".data, "a".data),
      ("content-disposition".data, "b".data)]) "content-disposition".data = some "b".data :=
  ⟨headers_c6_amended.1 [] [("content-disposition".data, "b".data)] "Content-Disposition".data
      "a".data "content-disposition".data (by decide) (by decide),
   headers_c6_amended.2 [("Content-Disposition".data, "a".data)] [] "content-disposition".data
      "b".data "content-disposition".data (by decide) (by decide)⟩

/-! ### Claim C1: the missing-terminator scenario -/

/-- The body of specification scenario 4. -/
def c1Body : List Nat :=
  utf8Encode "--B\r\nContent-Disposition: form-data; name=\"x\"\r\n\r\nhello\r\n".data

/-- Claim C1 as stated: strict parse of the scenario-4 body yields Invalid
with `missing_terminator` and one part named `x` with body `hello`. -/
def ClaimC1Stated : Prop :=
  (parse true c1Body "B".data).valid = false ∧
  (parse true c1Body "B".data).errorType = some "missing_terminator".data ∧
  (parse true c1Body "B".data).parts.length = 1 ∧
  ((parse true c1Body "B".data).parts.head?.map (fun p => p.name)) = some "x".data ∧
  ((parse true c1Body "B".data).parts.head?.map (fun p => p.body)) =
    some (utf8Encode "hello".data)

/-- Claim C1 is false on the code: the scenario-4 body contains no
`\r\n--B` after the part body, so `_find_next_boundary` fails first and the
parse returns `truncated` with an empty parts list, never reaching the
terminator check. -/
theorem parse_c1_counterexample : ¬ ClaimC1Stated := by
  intro h
  exact absurd h.2.1 (by decide)

/-- Claim C1 amended: on the scenario-4 body the strict parse returns
Invalid with `error_type="truncated"` (message: part body not terminated by
boundary) and an empty parts list. -/
theorem parse_c1_amended :
    parse true c1Body "B".data =
      ⟨false, [], some "truncated".data,
        some "Part body not terminated by boundary".data⟩ := by
  decide

/-! ### Claim C2: partial parts on failure -/

/-- Structural facts about every early `return` of the part loop: a
`truncated` result carries an empty parts list and the body-search message,
and no loop `return` is a `missing_terminator`. -/
theorem parseLoop_result_facts (strict : Bool) (body delim closeDelim : List Nat) :
    ∀ (f pos : Nat) (parts acc : List Part) (r : ParseResult),
    parseLoop strict body delim closeDelim f pos parts = LoopExit.result r acc →
    ((r.errorType = some "truncated".data →
        r.parts = [] ∧ r.errorMessage = some "Part body not terminated by boundary".data) ∧
      r.errorType ≠ some "missing_terminator".data) := by
  intro f
  induction f with
  | zero =>
    intro pos parts acc r heq
    rw [parseLoop] at heq
    obtain ⟨h1, h2⟩ := LoopExit.result.inj heq
    subst h1
    exact ⟨fun hcon => absurd hcon (by decide), by decide⟩
  | succ f ih =>
    intro pos parts acc r heq
    rw [parseLoop] at heq
    by_cases hpos : pos < body.length
    · rw [if_pos hpos] at heq
      split at heq
      case _ =>
        obtain ⟨h1, h2⟩ := LoopExit.result.inj heq
        subst h1
        exact ⟨fun hcon => absurd hcon (of_decide_eq_true rfl), of_decide_eq_true rfl⟩
      case _ =>
        dsimp only [] at heq
        repeat' (split at heq)
        all_goals try exact ih _ _ _ _ heq
        all_goals try (obtain ⟨h1, h2⟩ := LoopExit.result.inj heq
                       subst h1
                       exact ⟨fun hcon => absurd hcon (of_decide_eq_true rfl),
                         of_decide_eq_true rfl⟩)
        all_goals try (obtain ⟨h1, h2⟩ := LoopExit.result.inj heq
                       subst h1
                       exact ⟨fun hcon => ⟨rfl, rfl⟩, of_decide_eq_true rfl⟩)
        all_goals exact absurd heq (by simp)
    · rw [if_neg hpos] at heq
      exact absurd heq (by simp)

/-- Claim C2 as stated: whenever the parse fails with `truncated` or
`missing_terminator`, every part fully emitted before the failure (the
second component of `parseWithEmitted`) is in the returned parts list. -/
def ClaimC2Stated : Prop :=
  ∀ (strict : Bool) (body : List Nat) (boundary : List Char),
    ((parseWithEmitted strict body boundary).1.errorType = some "truncated".data ∨
      (parseWithEmitted strict body boundary).1.errorType = some "missing_terminator".data) →
    ∀ p ∈ (parseWithEmitted strict body boundary).2,
      p ∈ (parseWithEmitted strict body boundary).1.parts

/-- A body whose first part is complete and whose second part's body never
meets another boundary. -/
def c2Body : List Nat :=
  utf8Encode ("--B\r\nContent-Disposition: form-data; name=\"x\"\r\n\r\nhi\r\n" ++
    "--B\r\nContent-Disposition: form-data; name=\"y\"\r\n\r\nzz").data

/-- Claim C2 is false on the code: the `truncated` return at the
body-search site passes no parts, so the fully emitted first part of
`c2Body` is dropped from the result. -/
theorem parse_c2_counterexample : ¬ ClaimC2Stated := by
  intro h
  have h2 := h true c2Body "B".data (Or.inl (by decide))
  have hne : (parseWithEmitted true c2Body "B".data).2 ≠ [] := by decide
  have hmem := h2 _ (List.head_mem hne)
  have hparts : (parseWithEmitted true c2Body "B".data).1.parts = [] := by decide
  rw [hparts] at hmem
  exact absurd hmem (List.not_mem_nil _)

/-- Claim C2 amended: partial parts are returned only with
`missing_terminator`, where the parts list is exactly the list of fully
emitted parts; every `truncated` failure returns an empty parts list even
when parts had been emitted. -/
theorem parse_c2_amended (strict : Bool) (body : List Nat) (boundary : List Char) :
    ((parseWithEmitted strict body boundary).1.errorType = some "missing_terminator".data →
      (parseWithEmitted strict body boundary).1.parts =
        (parseWithEmitted strict body boundary).2) ∧
    ((parseWithEmitted strict body boundary).1.errorType = some "truncated".data →
      (parseWithEmitted strict body boundary).1.parts = []) := by
  unfold parseWithEmitted
  by_cases hb : boundary = []
  · rw [if_pos hb]
    exact ⟨fun hcon => absurd (Option.some.inj hcon) (of_decide_eq_true rfl),
      fun hcon => absurd (Option.some.inj hcon) (of_decide_eq_true rfl)⟩
  · rw [if_neg hb]
    dsimp only []
    cases hfind : pyFind body (utf8Encode ("--".data ++ boundary)) 0 with
    | none =>
      exact ⟨fun hcon => absurd (Option.some.inj hcon) (of_decide_eq_true rfl),
        fun hcon => absurd (Option.some.inj hcon) (of_decide_eq_true rfl)⟩
    | some firstBoundaryPos =>
      dsimp only []
      cases hskip : skipLineEnding strict body
          (firstBoundaryPos + (utf8Encode ("--".data ++ boundary)).length) with
      | none =>
        exact ⟨fun hcon => absurd (Option.some.inj hcon) (of_decide_eq_true rfl),
          fun _ => rfl⟩
      | some pos0 =>
        dsimp only []
        cases hloop : parseLoop strict body (utf8Encode ("--".data ++ boundary))
            (utf8Encode ("--".data ++ boundary ++ "--".data)) (body.length + 1) pos0 [] with
        | result r acc =>
          have hfacts := parseLoop_result_facts strict body _ _ _ _ _ _ _ hloop
          exact ⟨fun hcon => absurd hcon hfacts.2, fun hcon => (hfacts.1 hcon).1⟩
        | finished parts =>
          dsimp only []
          by_cases hterm : containsSub body (utf8Encode ("--".data ++ boundary ++ "--".data)) = true
          · rw [if_neg (not_not_intro hterm)]
            exact ⟨fun hcon => Option.noConfusion hcon, fun hcon => Option.noConfusion hcon⟩
          · rw [if_pos hterm]
            exact ⟨fun _ => rfl,
              fun hcon => absurd (Option.some.inj hcon) (of_decide_eq_true rfl)⟩

/-- Witness for the C2 amended theorem: a missing-terminator input whose
single emitted part is returned. -/
theorem parse_c2_witness :
    (parseWithEmitted true
      (utf8Encode "--B\r\nContent-Disposition: form-data; name=\"x\"\r\n\r\nhi\r\n--B\r\n".data)
      "B".data).1.parts =
    (parseWithEmitted true
      (utf8Encode "--B\r\nContent-Disposition: form-data; name=\"x\"\r\n\r\nhi\r\n--B\r\n".data)
      "B".data).2 :=
  (parse_c2_amended true
    (utf8Encode "--B\r\nContent-Disposition: form-data; name=\"x\"\r\n\r\nhi\r\n--B\r\n".data)
    "B".data).1 (by decide)

/-! ### Claim C4: line endings after delimiters -/

/-- No line ending acceptable in the current mode is present at `pos`:
in strict mode only CRLF is acceptable, in lenient mode CRLF or LF. -/
def noAcceptableLE (strict : Bool) (body : List Nat) (pos : Nat) : Prop :=
  ¬ (pySlice body pos (pos + 2) = CRLFb ∨
      (strict = false ∧ pySlice body pos (pos + 1) = LFb))

instance (strict : Bool) (body : List Nat) (pos : Nat) :
    Decidable (noAcceptableLE strict body pos) := by
  unfold noAcceptableLE
  infer_instance

/-- Claim C4 as stated: at both line-ending-consumption sites (after the
first boundary, and after an intermediate boundary at the end of a loop
iteration), absence of an acceptable line ending makes the parse fail with
`truncated`. -/
def ClaimC4Stated : Prop :=
  (∀ (strict : Bool) (body : List Nat) (boundary : List Char) (fbp : Nat),
    boundary ≠ [] →
    pyFind body (utf8Encode ("--".data ++ boundary)) 0 = some fbp →
    noAcceptableLE strict body (fbp + (utf8Encode ("--".data ++ boundary)).length) →
    (parse strict body boundary).errorType = some "truncated".data) ∧
  (∀ (strict : Bool) (body delim closeDelim : List Nat) (f pos : Nat) (parts : List Part)
    (headers : HDict) (headerEnd : Nat) (cd nm : List Char) (bodyEnd pos2 : Nat),
    pos < body.length →
    parseHeaders strict body pos = (some headers, headerEnd) →
    findCI headers "content-disposition".data = some cd →
    (parseContentDisposition cd).name = some nm →
    findNextBoundary strict body headerEnd delim = some bodyEnd →
    pos2 = (if pySlice body bodyEnd (bodyEnd + 2) = CRLFb then bodyEnd + 2
      else if pySlice body bodyEnd (bodyEnd + 1) = LFb ∧ ¬ strict then bodyEnd + 1
      else bodyEnd) →
    bytesStartsWith (List.drop pos2 body) closeDelim = false →
    bytesStartsWith (List.drop pos2 body) delim = true →
    noAcceptableLE strict body (pos2 + delim.length) →
    ∃ r acc, parseLoop strict body delim closeDelim (f + 1) pos parts = LoopExit.result r acc ∧
      r.errorType = some "truncated".data)

/-- A body whose single part is complete and followed by an intermediate
boundary with nothing after it. -/
def c4Body : List Nat :=
  utf8Encode "--B\r\nContent-Disposition: form-data; name=\"x\"\r\n\r\nhello\r\n--B".data

/-- Claim C4 is false on the code: after an intermediate boundary with no
line ending following it, `_skip_line_ending` returns `None` and the loop
`break`s (ending with the emitted parts), it does not fail with
`truncated`. -/
theorem parse_c4_counterexample : ¬ ClaimC4Stated := by
  intro h
  obtain ⟨r, acc, heq, -⟩ := h.2 true c4Body (utf8Encode "--B".data) (utf8Encode "--B--".data)
    0 5 [] [("Content-Disposition".data, "form-data; name=\"x\"".data)] 49
    "form-data; name=\"x\"".data "x".data 54 56
    (by decide) (by decide) (by decide) (by decide) (by decide) (by decide)
    (by decide) (by decide) (by decide)
  have hfin : parseLoop true c4Body (utf8Encode "--B".data) (utf8Encode "--B--".data)
      (0 + 1) 5 [] =
      LoopExit.finished [⟨"x".data, none, none, none, none,
        [("content-disposition".data, "form-data; name=\"x\"".data)],
        "hello".data.map Char.toNat⟩] := by decide
  rw [hfin] at heq
  exact LoopExit.noConfusion heq

/-- Claim C4 amended: the failure trigger is `_skip_line_ending` returning
`None` (position at or past the end of the body, or a lone LF in strict
mode; a non-line-ending byte is not a failure), and only the site after the
first boundary fails with `truncated`; after an intermediate boundary the
loop `break`s and finishes with the parts emitted so far, the final outcome
being decided by the terminator check. -/
theorem parse_c4_amended :
    (∀ (strict : Bool) (body : List Nat) (boundary : List Char) (fbp : Nat),
      boundary ≠ [] →
      pyFind body (utf8Encode ("--".data ++ boundary)) 0 = some fbp →
      skipLineEnding strict body (fbp + (utf8Encode ("--".data ++ boundary)).length) = none →
      parse strict body boundary =
        ⟨false, [], some "truncated".data,
          some "Unexpected end after first boundary".data⟩) ∧
    (∀ (strict : Bool) (body delim closeDelim : List Nat) (f pos : Nat) (parts : List Part)
      (headers : HDict) (headerEnd : Nat) (cd nm : List Char) (bodyEnd pos2 : Nat),
      pos < body.length →
      parseHeaders strict body pos = (some headers, headerEnd) →
      findCI headers "content-disposition".data = some cd →
      (parseContentDisposition cd).name = some nm →
      findNextBoundary strict body headerEnd delim = some bodyEnd →
      pos2 = (if pySlice body bodyEnd (bodyEnd + 2) = CRLFb then bodyEnd + 2
        else if pySlice body bodyEnd (bodyEnd + 1) = LFb ∧ ¬ strict then bodyEnd + 1
        else bodyEnd) →
      bytesStartsWith (List.drop pos2 body) closeDelim = false →
      bytesStartsWith (List.drop pos2 body) delim = true →
      skipLineEnding strict body (pos2 + delim.length) = none →
      ∃ ps, parseLoop strict body delim closeDelim (f + 1) pos parts =
        LoopExit.finished ps) := by
  constructor
  · intro strict body boundary fbp hb hfind hskip
    unfold parse parseWithEmitted
    rw [if_neg hb]
    dsimp only []
    rw [hfind]
    dsimp only []
    rw [hskip]
  · intro strict body delim closeDelim f pos parts headers headerEnd cd nm bodyEnd pos2
    intro hpos hhdr hcd hnm hfnb hpos2 hclose hdelim hskip
    rw [parseLoop, if_pos hpos]
    dsimp only []
    rw [hhdr]
    dsimp only []
    rw [hcd]
    dsimp only []
    rw [hnm]
    dsimp only []
    rw [hfnb]
    dsimp only []
    rw [← hpos2]
    have hc1 : ¬ bytesStartsWith (List.drop pos2 body) closeDelim = true := by
      rw [hclose]
      exact Bool.false_ne_true
    rw [if_neg hc1, if_pos hdelim, hskip]
    exact ⟨_, rfl⟩

/-- Witness for the C4 amended theorem: both conjuncts applied at concrete
inputs (the bare first boundary with nothing after it; `c4Body` whose
intermediate boundary ends the input). -/
theorem parse_c4_witness :
    parse true (utf8Encode "--B".data) "B".data =
      ⟨false, [], some "truncated".data,
        some "Unexpected end after first boundary".data⟩ ∧
    ∃ ps, parseLoop true c4Body (utf8Encode "--B".data) (utf8Encode "--B--".data)
      (0 + 1) 5 [] = LoopExit.finished ps :=
  ⟨parse_c4_amended.1 true (utf8Encode "--B".data) "B".data 0 (by decide) (by decide)
    (by decide),
   parse_c4_amended.2 true c4Body (utf8Encode "--B".data) (utf8Encode "--B--".data)
    0 5 [] [("Content-Disposition".data, "form-data; name=\"x\"".data)] 49
    "form-data; name=\"x\"".data "x".data 54 56
    (by decide) (by decide) (by decide) (by decide) (by decide) (by decide)
    (by decide) (by decide) (by decide)⟩

/-! ### Claim C3: generator / parser round trip -/

/-- One part of a generator specification: a call to `add_field` (no
filename) or `add_file` (with filename), with the optional content type and
the part content, and none of the other optional arguments. -/
structure GenPartSpec where
  name : List Char
  filename : Option (List Char)
  contentType : Option (List Char)
  body : List Nat
deriving DecidableEq

/-- The bytes a spec part contributes to the builder's parts list. -/
def specBytes (p : GenPartSpec) : List Nat :=
  buildHeaders CRLFb p.name p.filename p.contentType [] none ++ p.body

/-- The generator's output for a specification: CRLF line endings, final
terminator included, no preamble, epilogue or raw parts. -/
def genOutput (boundary : List Char) (specs : List GenPartSpec) : List Nat :=
  build boundary CRLFb true none none (specs.map specBytes)

/-- The four compared fields of a parsed part. -/
def partFields (p : Part) :
    List Char × Option (List Char) × Option (List Char) × List Nat :=
  (p.name, p.filename, p.contentType, p.body)

/-- The four compared fields of a spec part. -/
def specFields (s : GenPartSpec) :
    List Char × Option (List Char) × Option (List Char) × List Nat :=
  (s.name, s.filename, s.contentType, s.body)

/-- Claim C3 as stated: for every well-formed specification (valid
boundary; CRLF line ending; terminator included; no raw parts — all fixed
by `genOutput`), strict parsing of the generator's output is Valid and the
parts' names, filenames, content types and bodies equal the
specification's, for any number of parts. -/
def ClaimC3Stated : Prop :=
  ∀ (boundary : List Char) (specs : List GenPartSpec),
    (validateBoundary boundary).1 = true →
    (parse true (genOutput boundary specs) boundary).valid = true ∧
    (parse true (genOutput boundary specs) boundary).parts.map partFields =
      specs.map specFields

/-- Claim C3 is false on the code: the empty specification is well-formed
by the claim's conditions, but its output `--B--\r\n` fails to parse — the
first-boundary search finds the prefix `--B` of the terminator, no line
ending follows, and header parsing fails — so the result is Invalid
(`invalid_header`), not Valid. -/
theorem parse_c3_counterexample : ¬ ClaimC3Stated := by
  intro h
  have h2 := (h "B".data [] (by decide)).1
  exact absurd h2 (by decide)

/-- Characters safe inside a quoted Content-Disposition parameter: no
quote (the generator does not escape names), no backslash (so the escape
round trip is the identity), and no CR or LF (so header lines stay
lines). -/
def safeNameB (s : List Char) : Bool :=
  s.all (fun c => decide (c ≠ '"' ∧ c ≠ '\\' ∧ c ≠ '\r' ∧ c ≠ '\n'))

/-- A content type the parser hands back unchanged: nonempty (the builder
drops falsy values), no `;` (the parser keeps only the first `;`-piece),
no CR/LF, and no surrounding whitespace (the parser strips). -/
def safeCTB (ct : List Char) : Bool :=
  decide (ct ≠ []) &&
  ct.all (fun c => decide (c ≠ ';' ∧ c ≠ '\r' ∧ c ≠ '\n')) &&
  !pyWhitespace (ct.headD 'x') && !pyWhitespace (ct.getLastD 'x')

/-- The body must not simulate a boundary: no occurrence of
`CRLF ++ delim` may start strictly before the part's real junction. -/
def safeBody (delim b : List Nat) : Prop :=
  ∀ i, i < b.length → ¬ OccursAt (b ++ CRLFb ++ delim) (CRLFb ++ delim) i

instance (delim b : List Nat) : Decidable (safeBody delim b) := by
  unfold safeBody
  infer_instance

/-- All conditions on one spec part, relative to the delimiter bytes. -/
def SafeSpec (delim : List Nat) (p : GenPartSpec) : Prop :=
  safeNameB p.name = true ∧
  p.filename.all safeNameB = true ∧
  p.contentType.all safeCTB = true ∧
  safeBody delim p.body

instance (delim : List Nat) (p : GenPartSpec) : Decidable (SafeSpec delim p) := by
  unfold SafeSpec
  infer_instance

theorem drop_junction (body A B : List Nat) (pos q : Nat)
    (hdrop : body.drop pos = A ++ B) (hq : q = A.length + pos) :
    body.drop q = B := by
  subst hq
  rw [Nat.add_comm, ← List.drop_drop, hdrop, List.drop_left]

theorem occursAt_restrict (X Y pat : List Nat) (m : Nat)
    (hlen : m + pat.length ≤ X.length) (h : OccursAt (X ++ Y) pat m) :
    OccursAt X pat m := by
  unfold OccursAt at h ⊢
  rw [List.drop_append_of_le_length (by omega)] at h
  rw [List.prefix_iff_eq_take] at h ⊢
  rw [List.take_append_of_le_length (by rw [List.length_drop]; omega)] at h
  exact h

theorem pyStripLeft_cons_ws (c : Char) (s : List Char) (h : pyWhitespace c = true) :
    pyStripLeft (c :: s) = pyStripLeft s := by
  simp [pyStripLeft, List.dropWhile_cons, h]

theorem pyStripLeft_cons_not_ws (c : Char) (s : List Char) (h : pyWhitespace c = false) :
    pyStripLeft (c :: s) = c :: s := by
  simp [pyStripLeft, List.dropWhile_cons, h]

theorem pyStripRight_concat_not_ws (s : List Char) (c : Char) (h : pyWhitespace c = false) :
    pyStripRight (s ++ [c]) = s ++ [c] := by
  unfold pyStripRight
  rw [List.reverse_append]
  simp only [List.reverse_cons, List.reverse_nil, List.nil_append, List.cons_append,
    List.dropWhile_cons, h]
  simp

/-- Stripping a string whose first and last characters are not whitespace
is the identity. -/
theorem pyStrip_sandwich (a : Char) (mid : List Char) (b : Char)
    (ha : pyWhitespace a = false) (hb : pyWhitespace b = false) :
    pyStrip (a :: (mid ++ [b])) = a :: (mid ++ [b]) := by
  unfold pyStrip
  rw [show a :: (mid ++ [b]) = (a :: mid) ++ [b] from rfl,
    pyStripRight_concat_not_ws _ _ hb]
  rw [show (a :: mid) ++ [b] = a :: (mid ++ [b]) from rfl,
    pyStripLeft_cons_not_ws _ _ ha]

/-- Stripping one leading space off a string whose own ends are not
whitespace. -/
theorem pyStrip_space_sandwich (mid : List Char) (a b : Char)
    (ha : pyWhitespace a = false) (hb : pyWhitespace b = false) :
    pyStrip (' ' :: (a :: (mid ++ [b]))) = a :: (mid ++ [b]) := by
  unfold pyStrip
  rw [show ' ' :: (a :: (mid ++ [b])) = (' ' :: a :: mid) ++ [b] from rfl,
    pyStripRight_concat_not_ws _ _ hb]
  rw [show (' ' :: a :: mid) ++ [b] = ' ' :: (a :: (mid ++ [b])) from rfl,
    pyStripLeft_cons_ws _ _ (by decide), pyStripLeft_cons_not_ws _ _ ha]

theorem pyReplaceAux_id (pat repl : List Char) (c0 : Char) (t0 : List Char)
    (hp : pat = c0 :: t0) :
    ∀ (f : Nat) (s : List Char), c0 ∉ s → pyReplaceAux pat repl f s = s := by
  intro f
  induction f with
  | zero => intro s _; rfl
  | succ f ih =>
    intro s hs
    cases s with
    | nil => rfl
    | cons c t =>
      rw [pyReplaceAux]
      have hnp : ¬ (pat ≠ [] ∧ pat.isPrefixOf (c :: t)) := by
        rintro ⟨-, hpre⟩
        rw [hp] at hpre
        rw [List.isPrefixOf_iff_prefix, List.cons_prefix_cons] at hpre
        exact hs (hpre.1 ▸ List.mem_cons_self c t)
      rw [if_neg hnp]
      rw [ih t (fun hmem => hs (List.mem_cons_of_mem c hmem))]

theorem pyReplace_id (s pat repl : List Char) (c0 : Char) (t0 : List Char)
    (hp : pat = c0 :: t0) (hs : c0 ∉ s) : pyReplace s pat repl = s :=
  pyReplaceAux_id pat repl c0 t0 hp s.length s hs

theorem pySplitAll_no_sep (sep : Char) (s : List Char) (h : sep ∉ s) :
    pySplitAll sep s = [s] := by
  induction s with
  | nil => rfl
  | cons c t ih =>
    have hcs : ¬ c = sep := by
      intro hc
      exact h (by rw [hc]; exact List.mem_cons_self sep t)
    rw [pySplitAll, ih (fun hm => h (List.mem_cons_of_mem c hm))]
    dsimp only []
    rw [if_neg hcs]

theorem skipLineEnding_crlf (strict : Bool) (body : List Nat) (pos : Nat) (rest : List Nat)
    (hdrop : body.drop pos = CRLFb ++ rest) :
    skipLineEnding strict body pos = some (pos + 2) := by
  have hpos : pos < body.length :=
    pos_lt_of_drop_cons body pos CRLFb rest hdrop (by decide)
  have hslice : pySlice body pos (pos + 2) = CRLFb := by
    have := pySlice_of_drop body pos CRLFb rest hdrop
    rwa [show (CRLFb : List Nat).length + pos = pos + 2 from by simp [CRLFb]; omega] at this
  unfold skipLineEnding
  rw [if_neg (by omega), if_pos hslice]

/-- One header-line iteration of `_parse_headers` (strict mode) on a line
that contains a colon: a new header is stored. -/
theorem parseHeadersLoop_header_step (body : List Nat) (pos : Nat) (line : List Char)
    (rest : List Nat) (acc : HDict) (f : Nat)
    (hdrop : body.drop pos = utf8Encode line ++ (CRLFb ++ rest))
    (hsafe : ∀ c ∈ line, c ≠ '\r' ∧ c ≠ '\n')
    (hcolon : line.contains ':' = true)
    (hf : 1 ≤ f) :
    parseHeadersLoop true body f pos acc =
      parseHeadersLoop true body (f - 1) ((utf8Encode line).length + pos + 2)
        (dictSet acc (pyStrip (pySplitOnceD ':' line).1)
          (pyStrip (pySplitOnceD ':' line).2)) := by
  cases f with
  | zero => omega
  | succ f =>
    obtain ⟨hcrlf, hlf⟩ := headerLine_finds body pos line rest hdrop hsafe
    have hne : line ≠ [] := by
      intro hl
      rw [hl] at hcolon
      exact absurd hcolon (by decide)
    have hlen : 1 ≤ (utf8Encode line).length := by
      cases hl : line with
      | nil => exact absurd hl hne
      | cons c t =>
        rw [utf8Encode_cons]
        cases he : utf8EncodeChar c with
        | nil => exact absurd he (utf8EncodeChar_ne_nil c)
        | cons x xs => simp
    have hpos : pos < body.length := by
      refine pos_lt_of_drop_cons body pos (utf8Encode line) (CRLFb ++ rest) hdrop ?_
      intro hcon
      rw [hcon] at hlen
      simp at hlen
    conv_lhs => rw [parseHeadersLoop]
    rw [if_pos hpos, hcrlf, hlf]
    have hc1 : ¬ (some ((utf8Encode line).length + pos) = some pos) := by
      intro hcon
      rw [Option.some.injEq] at hcon
      omega
    rw [if_neg hc1]
    have hc2 : ¬ (some ((utf8Encode line ++ [13]).length + pos) = some pos ∧
        ¬ true = true) := by
      rintro ⟨-, hcon⟩
      exact hcon rfl
    rw [if_neg hc2]
    have hchoose : chooseLineEnd true (some ((utf8Encode line).length + pos))
        (some ((utf8Encode line ++ [13]).length + pos)) =
        some ((utf8Encode line).length + pos, (utf8Encode line).length + pos + 2) := by
      unfold chooseLineEnd
      dsimp only
      have hlt : (utf8Encode line).length + pos < (utf8Encode line ++ [13]).length + pos := by
        simp
      rw [if_pos hlt]
    rw [hchoose]
    simp only
    have hslice : pySlice body pos ((utf8Encode line).length + pos) = utf8Encode line :=
      pySlice_of_drop body pos _ _ hdrop
    rw [hslice, utf8Decode_utf8Encode]
    simp only
    rw [if_pos hcolon]
    rfl

/-- The closing iteration of `_parse_headers`: a CRLF at the cursor ends
the block and returns the headers. -/
theorem parseHeadersLoop_blank_step (body : List Nat) (pos : Nat) (rest : List Nat)
    (acc : HDict) (f : Nat)
    (hdrop : body.drop pos = CRLFb ++ rest) (hf : 1 ≤ f) :
    parseHeadersLoop true body f pos acc = (some acc, pos + 2) := by
  cases f with
  | zero => omega
  | succ f =>
    have hpos : pos < body.length :=
      pos_lt_of_drop_cons body pos CRLFb rest hdrop (by decide)
    have hcrlf : pyFind body CRLFb pos = some pos := by
      have := pyFind_decomp body CRLFb pos [] (CRLFb ++ rest) (by simpa using hdrop)
        (List.prefix_append _ _) (by intro m hm; simp at hm)
      simpa using this
    conv_lhs => rw [parseHeadersLoop]
    rw [if_pos hpos, hcrlf]
    rw [if_pos rfl]

theorem dictSet_nil (k v : List Char) : dictSet [] k v = [(k, v)] := rfl

theorem dictSet_single_new (a b k v : List Char) (h : ¬ a = k) :
    dictSet [(a, b)] k v = [(a, b), (k, v)] := by
  unfold dictSet
  have hany : List.any [(a, b)] (fun kv => kv.1 = k) = false := by
    simp [h]
  rw [hany]
  rfl

theorem findCI_cons_pos (a v : List Char) (d : HDict) (target : List Char)
    (h : pyLower a = target) : findCI ((a, v) :: d) target = some v := by
  unfold findCI
  have hfind : List.find? (fun kv => pyLower kv.1 = target) ((a, v) :: d) = some (a, v) := by
    apply List.find?_cons_of_pos
    simpa using h
  rw [hfind]
  rfl

theorem findCI_cons_neg (a v : List Char) (d : HDict) (target : List Char)
    (h : ¬ pyLower a = target) : findCI ((a, v) :: d) target = findCI d target := by
  unfold findCI
  have hfind : List.find? (fun kv => pyLower kv.1 = target) ((a, v) :: d) =
      List.find? (fun kv => pyLower kv.1 = target) d := by
    apply List.find?_cons_of_neg
    simpa using h
  rw [hfind]

theorem findCI_nil (target : List Char) : findCI [] target = none := rfl

/-- The Content-Disposition header line the builder writes for a part
(escaping is the identity for safe filenames). -/
def cdLine (p : GenPartSpec) : List Char :=
  ("Content-Disposition: form-data; name=\"".data ++ p.name ++ "\"".data) ++
    (match p.filename with
     | some fn => "; filename=\"".data ++ fn ++ "\"".data
     | none => [])

/-- The same line's value part, as the header parser stores it. -/
def cdValue (p : GenPartSpec) : List Char :=
  ("form-data; name=\"".data ++ p.name ++ "\"".data) ++
    (match p.filename with
     | some fn => "; filename=\"".data ++ fn ++ "\"".data
     | none => [])

/-- The bytes of the optional Content-Type line. -/
def ctBytes (p : GenPartSpec) : List Nat :=
  match p.contentType with
  | some ct => utf8Encode ("Content-Type: ".data ++ ct) ++ CRLFb
  | none => []

/-- The byte rendering of one part's header block. -/
def hdrBytes (p : GenPartSpec) : List Nat :=
  utf8Encode (cdLine p) ++ CRLFb ++ ctBytes p ++ CRLFb

/-- The header dictionary the parser recovers from the block. -/
def specHeaders (p : GenPartSpec) : HDict :=
  match p.contentType with
  | some ct => [("Content-Disposition".data, cdValue p), ("Content-Type".data, ct)]
  | none => [("Content-Disposition".data, cdValue p)]

/-- The `Part` the parser emits for one spec part. -/
def specPart (p : GenPartSpec) : Part :=
  ⟨p.name, p.filename, none, p.contentType,
   (match p.contentType with | some ct => findCharset ct | none => none),
   lowerHeaders (specHeaders p), p.body⟩

/-- The message bytes following an intermediate delimiter: the remaining
parts and the final terminator line. -/
def msgRest (delim : List Nat) : List GenPartSpec → List Nat
  | [] => [45, 45] ++ CRLFb
  | p :: rest => CRLFb ++ (specBytes p ++ (CRLFb ++ (delim ++ msgRest delim rest)))

theorem closeDelim_eq (boundary : List Char) :
    utf8Encode ("--".data ++ boundary ++ "--".data) =
      utf8Encode ("--".data ++ boundary) ++ [45, 45] := by
  rw [utf8Encode_append]
  rw [show utf8Encode "--".data = [45, 45] from by decide]

theorem buildPartsBytes_true (d le : List Nat) (ps : List (List Nat)) :
    buildPartsBytes d le true ps = (ps.map (fun p => d ++ le ++ p ++ le)).flatten := by
  unfold buildPartsBytes
  congr 1
  have hmap : ∀ ip ∈ ps.enum,
      d ++ le ++ ip.2 ++ (if ip.1 < ps.length - 1 ∨ (true : Bool) = true then le else []) =
      d ++ le ++ ip.2 ++ le := by
    intro ip _
    rw [if_pos (Or.inr rfl)]
  rw [List.map_congr_left hmap]
  calc ps.enum.map (fun ip => d ++ le ++ ip.2 ++ le)
      = (ps.enum.map Prod.snd).map (fun p => d ++ le ++ p ++ le) := by
        rw [List.map_map]
        rfl
      _ = ps.map (fun p => d ++ le ++ p ++ le) := by
        rw [List.enum_map_snd]

theorem flatten_msgRest (delim : List Nat) (specs : List GenPartSpec) :
    ((specs.map specBytes).map (fun b => delim ++ CRLFb ++ b ++ CRLFb)).flatten ++
      (delim ++ [45, 45] ++ CRLFb) = delim ++ msgRest delim specs := by
  induction specs with
  | nil => simp [msgRest]
  | cons p rest ih =>
    simp only [List.map_cons, List.flatten_cons, msgRest]
    rw [List.append_assoc (delim ++ CRLFb ++ specBytes p ++ CRLFb)]
    rw [ih]
    simp [List.append_assoc]

/-- The generator's output, decomposed as the first delimiter followed by
the part blocks and terminator. -/
theorem genOutput_msgRest (boundary : List Char) (specs : List GenPartSpec) :
    genOutput boundary specs =
      utf8Encode ("--".data ++ boundary) ++
        msgRest (utf8Encode ("--".data ++ boundary)) specs := by
  unfold genOutput build
  dsimp only []
  rw [buildPartsBytes_true, closeDelim_eq, if_pos rfl]
  rw [show ([] : List Nat) ++
      ((specs.map specBytes).map
        (fun b => utf8Encode ("--".data ++ boundary) ++ CRLFb ++ b ++ CRLFb)).flatten =
      ((specs.map specBytes).map
        (fun b => utf8Encode ("--".data ++ boundary) ++ CRLFb ++ b ++ CRLFb)).flatten from
    List.nil_append _]
  rw [List.append_assoc, ← flatten_msgRest (utf8Encode ("--".data ++ boundary)) specs]

theorem msgRest_length_ge (delim : List Nat) (specs : List GenPartSpec) :
    specs.length ≤ (msgRest delim specs).length := by
  induction specs with
  | nil => simp [msgRest]
  | cons p rest ih =>
    simp only [msgRest, List.length_cons, List.length_append, CRLFb,
      List.length_nil]
    omega

theorem occursAt_shift (x z pat : List Nat) (i : Nat) (h : OccursAt z pat i) :
    OccursAt (x ++ z) pat (x.length + i) := by
  unfold OccursAt at h ⊢
  rw [List.drop_append]
  exact h

theorem msgRest_contains_close (delim : List Nat) (specs : List GenPartSpec) :
    ∃ i, OccursAt (delim ++ msgRest delim specs) (delim ++ [45, 45]) i := by
  induction specs with
  | nil =>
    refine ⟨0, ?_⟩
    unfold OccursAt
    rw [List.drop_zero, msgRest]
    rw [show delim ++ ([45, 45] ++ CRLFb) = (delim ++ [45, 45]) ++ CRLFb from
      (List.append_assoc _ _ _).symm]
    exact List.prefix_append _ _
  | cons p rest ih =>
    obtain ⟨i, hi⟩ := ih
    have hx : delim ++ msgRest delim (p :: rest) =
        (delim ++ CRLFb ++ specBytes p ++ CRLFb) ++ (delim ++ msgRest delim rest) := by
      simp [msgRest, List.append_assoc]
    rw [hx]
    exact ⟨_, occursAt_shift _ _ _ i hi⟩

theorem containsSub_of_occursAt (hay pat : List Nat) (h : ∃ i, OccursAt hay pat i) :
    containsSub hay pat = true := by
  unfold containsSub
  obtain ⟨i, hi⟩ := h
  cases hfz : findZero pat hay with
  | none => exact absurd hi ((findZero_eq_none_iff pat hay).1 hfz i)
  | some n => rfl

theorem safeNameB_mem (s : List Char) (h : safeNameB s = true) :
    ∀ c ∈ s, c ≠ '"' ∧ c ≠ '\\' ∧ c ≠ '\r' ∧ c ≠ '\n' := by
  intro c hc
  have := List.all_eq_true.1 h c hc
  simpa using this

/-- The builder's header block for a spec part, in closed form (escaping is
the identity on safe filenames). -/
theorem buildHeaders_eq (p : GenPartSpec)
    (hfn : p.filename.all safeNameB = true)
    (hct : p.contentType.all (fun ct => decide (ct ≠ [])) = true) :
    buildHeaders CRLFb p.name p.filename p.contentType [] none = hdrBytes p := by
  unfold buildHeaders hdrBytes ctBytes cdLine
  cases hf : p.filename with
  | none =>
    cases hc : p.contentType with
    | none =>
      dsimp only []
      simp [List.intersperse, List.append_assoc]
    | some ct =>
      have hctne : ct ≠ [] := by
        rw [hc] at hct
        simpa using hct
      dsimp only []
      rw [if_pos hctne]
      simp [List.intersperse, List.append_assoc]
  | some fn =>
    have hsafe : safeNameB fn = true := by
      rw [hf] at hfn
      simpa using hfn
    have hmem := safeNameB_mem fn hsafe
    have hbs : '\\' ∉ fn := fun hm => ((hmem _ hm).2.1) rfl
    have h1 : pyReplace fn "\\".data "\\\\".data = fn :=
      pyReplace_id _ _ _ '\\' [] (by decide) hbs
    have hq : '"' ∉ fn := fun hm => ((hmem _ hm).1) rfl
    have h2 : pyReplace fn "\"".data "\\\"".data = fn :=
      pyReplace_id _ _ _ '"' [] (by decide) hq
    cases hc : p.contentType with
    | none =>
      dsimp only []
      rw [h1, h2]
      simp [List.intersperse, List.append_assoc]
    | some ct =>
      have hctne : ct ≠ [] := by
        rw [hc] at hct
        simpa using hct
      dsimp only []
      rw [h1, h2, if_pos hctne]
      simp [List.intersperse, List.append_assoc]

theorem specBytes_eq (p : GenPartSpec)
    (hfn : p.filename.all safeNameB = true)
    (hct : p.contentType.all (fun ct => decide (ct ≠ [])) = true) :
    specBytes p = hdrBytes p ++ p.body := by
  unfold specBytes
  rw [buildHeaders_eq p hfn hct]

/-- The tokenizer passes a plain segment (no backslash, quote or
semicolon) straight into the current token. -/
theorem tok_plain (s : List Char) (hs : ∀ c ∈ s, c ≠ '\\' ∧ c ≠ '"' ∧ c ≠ ';') :
    ∀ (rest : List Char) (toks : List (List Char)) (cur : List Char) (inQ : Bool),
    tokenizeAux (s ++ rest) toks cur inQ false =
      tokenizeAux rest toks (cur ++ s) inQ false := by
  induction s with
  | nil =>
    intro rest toks cur inQ
    simp
  | cons c t ih =>
    intro rest toks cur inQ
    have hc := hs c (List.mem_cons_self c t)
    rw [List.cons_append, tokenizeAux]
    have hA : ¬ ((false : Bool) = true) := by decide
    rw [if_neg hA]
    have hB : ¬ (c = '\\' ∧ inQ = true) := fun hcon => hc.1 hcon.1
    rw [if_neg hB]
    rw [if_neg hc.2.1]
    have hD : ¬ (c = ';' ∧ ¬ inQ = true) := fun hcon => hc.2.2 hcon.1
    rw [if_neg hD]
    rw [ih (fun x hx => hs x (List.mem_cons_of_mem c hx))]
    rw [List.append_assoc]
    rfl

/-- Inside quotes the tokenizer passes any backslash- and quote-free
segment (semicolons included) into the current token. -/
theorem tok_inq (s : List Char) (hs : ∀ c ∈ s, c ≠ '\\' ∧ c ≠ '"') :
    ∀ (rest : List Char) (toks : List (List Char)) (cur : List Char),
    tokenizeAux (s ++ rest) toks cur true false =
      tokenizeAux rest toks (cur ++ s) true false := by
  induction s with
  | nil =>
    intro rest toks cur
    simp
  | cons c t ih =>
    intro rest toks cur
    have hc := hs c (List.mem_cons_self c t)
    rw [List.cons_append, tokenizeAux]
    have hA : ¬ ((false : Bool) = true) := by decide
    rw [if_neg hA]
    have hB : ¬ (c = '\\' ∧ (true : Bool) = true) := fun hcon => hc.1 hcon.1
    rw [if_neg hB]
    rw [if_neg hc.2]
    have hD : ¬ (c = ';' ∧ ¬ (true : Bool) = true) := fun hcon => hcon.2 rfl
    rw [if_neg hD]
    rw [ih (fun x hx => hs x (List.mem_cons_of_mem c hx))]
    rw [List.append_assoc]
    rfl

/-- A quote toggles the in-quotes state. -/
theorem tok_quote (rest : List Char) (toks : List (List Char)) (cur : List Char)
    (inQ : Bool) :
    tokenizeAux ('"' :: rest) toks cur inQ false =
      tokenizeAux rest toks (cur ++ ['"']) (!inQ) false := by
  rw [tokenizeAux]
  have hA : ¬ ((false : Bool) = true) := by decide
  rw [if_neg hA]
  have hB : ¬ (('"' : Char) = '\\' ∧ inQ = true) := fun hcon => absurd hcon.1 (by decide)
  rw [if_neg hB]
  rw [if_pos rfl]

/-- A semicolon outside quotes ends the current token. -/
theorem tok_semi (rest : List Char) (toks : List (List Char)) (cur : List Char) :
    tokenizeAux (';' :: rest) toks cur false false =
      tokenizeAux rest (toks ++ [cur]) [] false false := by
  rw [tokenizeAux]
  have hA : ¬ ((false : Bool) = true) := by decide
  rw [if_neg hA]
  have hB : ¬ ((';' : Char) = '\\' ∧ (false : Bool) = true) := fun hcon => hA hcon.2
  rw [if_neg hB]
  have hC : ¬ ((';' : Char) = '"') := by decide
  rw [if_neg hC]
  have hD : (';' : Char) = ';' ∧ ¬ (false : Bool) = true := ⟨rfl, hA⟩
  rw [if_pos hD]

theorem tok_end (toks : List (List Char)) (cur : List Char) (inQ esc : Bool)
    (h : cur ≠ []) : tokenizeAux [] toks cur inQ esc = toks ++ [cur] := by
  rw [tokenizeAux, if_pos h]

/-- Tokenizing the generated Content-Disposition value yields the
disposition type and one token per parameter. -/
theorem tokenize_cdValue (p : GenPartSpec)
    (hname : safeNameB p.name = true) (hfn : p.filename.all safeNameB = true) :
    tokenizeHeaderParams (cdValue p) =
      "form-data".data :: (" name=\"".data ++ p.name ++ "\"".data) ::
        (match p.filename with
         | some fn => [" filename=\"".data ++ fn ++ "\"".data]
         | none => []) := by
  have hnm : ∀ c ∈ p.name, c ≠ '\\' ∧ c ≠ '"' := fun c hc =>
    ⟨((safeNameB_mem _ hname) c hc).2.1, ((safeNameB_mem _ hname) c hc).1⟩
  unfold tokenizeHeaderParams cdValue
  cases hf : p.filename with
  | none =>
    dsimp only []
    have hsplit : "form-data; name=\"".data ++ p.name ++ "\"".data ++ [] =
        "form-data".data ++ (';' :: (" name=".data ++ ('"' :: (p.name ++ ['"'])))) := by
      rw [show "form-data; name=\"".data =
        "form-data".data ++ (';' :: (" name=".data ++ ['"'])) from by decide]
      rw [show "\"".data = ['"'] from by decide]
      simp [List.append_assoc]
    rw [hsplit]
    rw [tok_plain "form-data".data (by decide), List.nil_append]
    rw [tok_semi]
    rw [tok_plain " name=".data (by decide), List.nil_append]
    rw [tok_quote]
    simp only [Bool.not_false]
    rw [tok_inq p.name hnm]
    rw [tok_quote]
    simp only [Bool.not_true]
    rw [tok_end _ _ _ _ (by simp)]
    simp [List.append_assoc]
  | some fn =>
    have hfs : safeNameB fn = true := by
      rw [hf] at hfn
      simpa using hfn
    have hfm : ∀ c ∈ fn, c ≠ '\\' ∧ c ≠ '"' := fun c hc =>
      ⟨((safeNameB_mem _ hfs) c hc).2.1, ((safeNameB_mem _ hfs) c hc).1⟩
    dsimp only []
    have hsplit : "form-data; name=\"".data ++ p.name ++ "\"".data ++
        ("; filename=\"".data ++ fn ++ "\"".data) =
        "form-data".data ++ (';' :: (" name=".data ++ ('"' :: (p.name ++
          ('"' :: (';' :: (" filename=".data ++ ('"' :: (fn ++ ['"']))))))))) := by
      rw [show "form-data; name=\"".data =
        "form-data".data ++ (';' :: (" name=".data ++ ['"'])) from by decide]
      rw [show "; filename=\"".data =
        ';' :: (" filename=".data ++ ['"']) from by decide]
      rw [show "\"".data = ['"'] from by decide]
      simp [List.append_assoc]
    rw [hsplit]
    rw [tok_plain "form-data".data (by decide), List.nil_append]
    rw [tok_semi]
    rw [tok_plain " name=".data (by decide), List.nil_append]
    rw [tok_quote]
    simp only [Bool.not_false]
    rw [tok_inq p.name hnm]
    rw [tok_quote]
    simp only [Bool.not_true]
    rw [tok_semi]
    rw [tok_plain " filename=".data (by decide), List.nil_append]
    rw [tok_quote]
    simp only [Bool.not_false]
    rw [tok_inq fn hfm]
    rw [tok_quote]
    simp only [Bool.not_true]
    rw [tok_end _ _ _ _ (by simp)]
    simp [List.append_assoc]

theorem strip_name_token (N : List Char) :
    pyStrip ([' ', 'n', 'a', 'm', 'e', '=', '"'] ++ N ++ ['"']) =
      ['n', 'a', 'm', 'e', '=', '"'] ++ N ++ ['"'] := by
  have h1 : ([' ', 'n', 'a', 'm', 'e', '=', '"'] : List Char) ++ N ++ ['"'] =
      ' ' :: ('n' :: ((['a', 'm', 'e', '=', '"'] ++ N) ++ ['"'])) := by
    simp
  rw [h1, pyStrip_space_sandwich (['a', 'm', 'e', '=', '"'] ++ N) 'n' '"'
    (by decide) (by decide)]
  simp

theorem strip_filename_token (N : List Char) :
    pyStrip ([' ', 'f', 'i', 'l', 'e', 'n', 'a', 'm', 'e', '=', '"'] ++ N ++ ['"']) =
      ['f', 'i', 'l', 'e', 'n', 'a', 'm', 'e', '=', '"'] ++ N ++ ['"'] := by
  have h1 : ([' ', 'f', 'i', 'l', 'e', 'n', 'a', 'm', 'e', '=', '"'] : List Char) ++
      N ++ ['"'] =
      ' ' :: ('f' :: ((['i', 'l', 'e', 'n', 'a', 'm', 'e', '=', '"'] ++ N) ++ ['"'])) := by
    simp
  rw [h1, pyStrip_space_sandwich (['i', 'l', 'e', 'n', 'a', 'm', 'e', '=', '"'] ++ N)
    'f' '"' (by decide) (by decide)]
  simp

theorem split_name_token (N : List Char) :
    pySplitOnceD '=' (['n', 'a', 'm', 'e', '=', '"'] ++ N ++ ['"']) =
      (['n', 'a', 'm', 'e'], ['"'] ++ (N ++ ['"'])) := by
  have h1 : (['n', 'a', 'm', 'e', '=', '"'] : List Char) ++ N ++ ['"'] =
      ['n', 'a', 'm', 'e'] ++ '=' :: (['"'] ++ (N ++ ['"'])) := by
    simp
  rw [h1, pySplitOnceD_append '=' ['n', 'a', 'm', 'e'] _ (by decide)]

theorem split_filename_token (N : List Char) :
    pySplitOnceD '=' (['f', 'i', 'l', 'e', 'n', 'a', 'm', 'e', '=', '"'] ++ N ++ ['"']) =
      (['f', 'i', 'l', 'e', 'n', 'a', 'm', 'e'], ['"'] ++ (N ++ ['"'])) := by
  have h1 : (['f', 'i', 'l', 'e', 'n', 'a', 'm', 'e', '=', '"'] : List Char) ++
      N ++ ['"'] =
      ['f', 'i', 'l', 'e', 'n', 'a', 'm', 'e'] ++ '=' :: (['"'] ++ (N ++ ['"'])) := by
    simp
  rw [h1, pySplitOnceD_append '=' ['f', 'i', 'l', 'e', 'n', 'a', 'm', 'e'] _ (by decide)]

theorem strip_quoted (N : List Char) :
    pyStrip (['"'] ++ (N ++ ['"'])) = ['"'] ++ (N ++ ['"']) := by
  rw [show (['"'] : List Char) ++ (N ++ ['"']) = '"' :: (N ++ ['"']) from rfl]
  exact pyStrip_sandwich '"' N '"' (by decide) (by decide)

theorem quoted_starts (N : List Char) :
    pyStartsWith (['"'] ++ (N ++ ['"'])) ['"'] = true := by
  simp [pyStartsWith, List.isPrefixOf]

theorem quoted_ends (N : List Char) :
    pyEndsWith (['"'] ++ (N ++ ['"'])) ['"'] = true := by
  unfold pyEndsWith
  rw [show (['"'] : List Char) ++ (N ++ ['"']) = ('"' :: N) ++ ['"'] from by simp]
  simp [List.isSuffixOf, List.reverse_append, List.isPrefixOf]

theorem quoted_core (N : List Char) :
    ((['"'] ++ (N ++ ['"'])).drop 1).dropLast = N := by
  simp

/-- Parsing the generated Content-Disposition value recovers the name and
filename exactly. -/
theorem parseCD_cdValue (p : GenPartSpec)
    (hname : safeNameB p.name = true) (hfn : p.filename.all safeNameB = true) :
    parseContentDisposition (cdValue p) =
      ⟨some "form-data".data, some p.name, p.filename, none⟩ := by
  have hnmem := safeNameB_mem _ hname
  have hbs : '\\' ∉ p.name := fun hm => ((hnmem _ hm).2.1) rfl
  have hne : cdValue p ≠ [] := by
    unfold cdValue
    intro hcon
    obtain ⟨h1, -⟩ := List.append_eq_nil.1 hcon
    obtain ⟨h2, -⟩ := List.append_eq_nil.1 h1
    obtain ⟨h3, -⟩ := List.append_eq_nil.1 h2
    exact absurd h3 (by decide)
  unfold parseContentDisposition
  rw [if_neg hne]
  rw [tokenize_cdValue p hname hfn]
  have htyp : pyLower (pyStrip ['f', 'o', 'r', 'm', '-', 'd', 'a', 't', 'a']) =
      ['f', 'o', 'r', 'm', '-', 'd', 'a', 't', 'a'] := by decide
  have hkeyn : pyLower (pyStrip ['n', 'a', 'm', 'e']) = ['n', 'a', 'm', 'e'] := by decide
  have hcnn : ¬ ¬ ((['n', 'a', 'm', 'e', '=', '"'] ++ p.name ++ ['"']).contains '=' = true) :=
    not_not_intro (by simp)
  cases hf : p.filename with
  | none =>
    simp only [List.head?_cons, List.tail_cons, Option.map_some, List.foldl_cons,
      List.foldl_nil]
    rw [strip_name_token]
    rw [if_neg hcnn]
    rw [split_name_token]
    rw [hkeyn, strip_quoted]
    have hq1 : pyStartsWith (['"'] ++ (p.name ++ ['"'])) ['"'] = true ∧
        pyEndsWith (['"'] ++ (p.name ++ ['"'])) ['"'] = true :=
      ⟨quoted_starts p.name, quoted_ends p.name⟩
    rw [if_pos hq1]
    rw [quoted_core]
    rw [pyReplace_id p.name ['\\', '"'] ['"'] '\\' ['"'] rfl hbs]
    rw [pyReplace_id p.name ['\\', '\\'] ['\\'] '\\' ['\\'] rfl hbs]
    have hkeq : (['n', 'a', 'm', 'e'] : List Char) = ['n', 'a', 'm', 'e'] := rfl
    rw [if_pos hkeq]
    rfl
  | some fn =>
    have hfs : safeNameB fn = true := by
      rw [hf] at hfn
      simpa using hfn
    have hfbs : '\\' ∉ fn := fun hm => ((safeNameB_mem _ hfs _ hm).2.1) rfl
    have hkeyf : pyLower (pyStrip ['f', 'i', 'l', 'e', 'n', 'a', 'm', 'e']) =
        ['f', 'i', 'l', 'e', 'n', 'a', 'm', 'e'] := by decide
    have hcnf : ¬ ¬ ((['f', 'i', 'l', 'e', 'n', 'a', 'm', 'e', '=', '"'] ++ fn ++
        ['"']).contains '=' = true) := not_not_intro (by simp)
    simp only [List.head?_cons, List.tail_cons, Option.map_some, List.foldl_cons,
      List.foldl_nil]
    rw [strip_name_token]
    rw [if_neg hcnn]
    rw [split_name_token]
    rw [hkeyn, strip_quoted]
    have hq1 : pyStartsWith (['"'] ++ (p.name ++ ['"'])) ['"'] = true ∧
        pyEndsWith (['"'] ++ (p.name ++ ['"'])) ['"'] = true :=
      ⟨quoted_starts p.name, quoted_ends p.name⟩
    rw [if_pos hq1]
    rw [quoted_core]
    rw [pyReplace_id p.name ['\\', '"'] ['"'] '\\' ['"'] rfl hbs]
    rw [pyReplace_id p.name ['\\', '\\'] ['\\'] '\\' ['\\'] rfl hbs]
    have hkeq : (['n', 'a', 'm', 'e'] : List Char) = ['n', 'a', 'm', 'e'] := rfl
    rw [if_pos hkeq]
    rw [strip_filename_token]
    rw [if_neg hcnf]
    rw [split_filename_token]
    rw [hkeyf, strip_quoted]
    have hq2 : pyStartsWith (['"'] ++ (fn ++ ['"'])) ['"'] = true ∧
        pyEndsWith (['"'] ++ (fn ++ ['"'])) ['"'] = true :=
      ⟨quoted_starts fn, quoted_ends fn⟩
    rw [if_pos hq2]
    rw [quoted_core]
    rw [pyReplace_id fn ['\\', '"'] ['"'] '\\' ['"'] rfl hfbs]
    rw [pyReplace_id fn ['\\', '\\'] ['\\'] '\\' ['\\'] rfl hfbs]
    have hknf : ¬ (['f', 'i', 'l', 'e', 'n', 'a', 'm', 'e'] : List Char) =
        ['n', 'a', 'm', 'e'] := by decide
    rw [if_neg hknf]
    have hkf : (['f', 'i', 'l', 'e', 'n', 'a', 'm', 'e'] : List Char) =
        ['f', 'i', 'l', 'e', 'n', 'a', 'm', 'e'] := rfl
    rw [if_pos hkf]
    rfl

theorem getLastD_concat_self (L : List Char) (c : Char) :
    ∀ d, (L ++ [c]).getLastD d = c := by
  induction L with
  | nil => intro d; rfl
  | cons a t ih =>
    intro d
    rw [List.cons_append, List.getLastD_cons]
    exact ih a

theorem pyStrip_space_self (s : List Char) (hne : s ≠ [])
    (hh : pyWhitespace (s.headD 'x') = false)
    (hl : pyWhitespace (s.getLastD 'x') = false) :
    pyStrip (' ' :: s) = s := by
  cases hs : s with
  | nil => exact absurd hs hne
  | cons c0 t0 =>
    rw [hs] at hh hl
    simp only [List.headD_cons] at hh
    rcases List.eq_nil_or_concat t0 with rfl | ⟨mid, lastc, rfl⟩
    · simp only [List.getLastD_cons, List.getLastD_nil] at hl
      unfold pyStrip
      rw [show (' ' :: [c0] : List Char) = [' '] ++ [c0] from rfl,
        pyStripRight_concat_not_ws _ _ hl]
      rw [show ([' '] : List Char) ++ [c0] = ' ' :: [c0] from rfl,
        pyStripLeft_cons_ws _ _ (by decide), pyStripLeft_cons_not_ws _ _ hh]
    · rw [List.concat_eq_append] at hl ⊢
      have hlast : ((c0 :: (mid ++ [lastc])) : List Char).getLastD 'x' = lastc := by
        rw [show (c0 :: (mid ++ [lastc]) : List Char) = (c0 :: mid) ++ [lastc] from rfl]
        exact getLastD_concat_self (c0 :: mid) lastc 'x'
      rw [hlast] at hl
      exact pyStrip_space_sandwich mid c0 lastc hh hl

theorem safeCTB_spec (ct : List Char) (h : safeCTB ct = true) :
    ct ≠ [] ∧ (∀ c ∈ ct, c ≠ ';' ∧ c ≠ '\r' ∧ c ≠ '\n') ∧
    pyWhitespace (ct.headD 'x') = false ∧ pyWhitespace (ct.getLastD 'x') = false := by
  unfold safeCTB at h
  simp only [Bool.and_eq_true, decide_eq_true_eq, List.all_eq_true,
    Bool.not_eq_true'] at h
  exact ⟨h.1.1.1, fun c hc => by simpa using h.1.1.2 c hc, h.1.2, h.2⟩

theorem cdLine_safe (p : GenPartSpec)
    (hname : safeNameB p.name = true) (hfn : p.filename.all safeNameB = true) :
    ∀ c ∈ cdLine p, c ≠ '\r' ∧ c ≠ '\n' := by
  intro c hc
  unfold cdLine at hc
  rcases List.mem_append.1 hc with hc | hc
  · rcases List.mem_append.1 hc with hc | hc
    · rcases List.mem_append.1 hc with hc | hc
      · exact ⟨fun h => by subst h; exact absurd hc (by decide),
          fun h => by subst h; exact absurd hc (by decide)⟩
      · have := safeNameB_mem _ hname c hc
        exact ⟨this.2.2.1, this.2.2.2⟩
    · exact ⟨fun h => by subst h; exact absurd hc (by decide),
        fun h => by subst h; exact absurd hc (by decide)⟩
  · cases hf : p.filename with
    | none =>
      rw [hf] at hc
      simp at hc
    | some fn =>
      rw [hf] at hc
      have hfs : safeNameB fn = true := by
        rw [hf] at hfn
        simpa using hfn
      rcases List.mem_append.1 hc with hc | hc
      · rcases List.mem_append.1 hc with hc | hc
        · exact ⟨fun h => by subst h; exact absurd hc (by decide),
            fun h => by subst h; exact absurd hc (by decide)⟩
        · have := safeNameB_mem _ hfs c hc
          exact ⟨this.2.2.1, this.2.2.2⟩
      · exact ⟨fun h => by subst h; exact absurd hc (by decide),
          fun h => by subst h; exact absurd hc (by decide)⟩

theorem cdLine_contains_colon (p : GenPartSpec) : (cdLine p).contains ':' = true := by
  unfold cdLine
  simp

theorem cd_key_value (p : GenPartSpec)
    (hname : safeNameB p.name = true) (hfn : p.filename.all safeNameB = true) :
    pyStrip (pySplitOnceD ':' (cdLine p)).1 = "Content-Disposition".data ∧
    pyStrip (pySplitOnceD ':' (cdLine p)).2 = cdValue p := by
  have hvne : cdValue p ≠ [] := by
    unfold cdValue
    intro hcon
    obtain ⟨h1, -⟩ := List.append_eq_nil.1 hcon
    obtain ⟨h2, -⟩ := List.append_eq_nil.1 h1
    obtain ⟨h3, -⟩ := List.append_eq_nil.1 h2
    exact absurd h3 (by decide)
  have hhead : pyWhitespace ((cdValue p).headD 'x') = false := by
    unfold cdValue
    rw [show ("form-data; name=\"".data ++ p.name ++ "\"".data) ++
        (match p.filename with
         | some fn => "; filename=\"".data ++ fn ++ "\"".data
         | none => []) =
      'f' :: (("orm-data; name=\"".data ++ p.name ++ "\"".data) ++
        (match p.filename with
         | some fn => "; filename=\"".data ++ fn ++ "\"".data
         | none => [])) from by
      rw [show "form-data; name=\"".data = 'f' :: "orm-data; name=\"".data from by decide]
      simp [List.append_assoc]]
    simp
    decide
  have hlastq : (cdValue p).getLastD 'x' = '"' := by
    unfold cdValue
    cases hf : p.filename with
    | none =>
      rw [show ("form-data; name=\"".data ++ p.name ++ "\"".data) ++ ([] : List Char) =
        ("form-data; name=\"".data ++ p.name) ++ ['"'] from by
        rw [show "\"".data = ['"'] from by decide]
        simp]
      exact getLastD_concat_self _ '"' 'x'
    | some fn =>
      rw [show ("form-data; name=\"".data ++ p.name ++ "\"".data) ++
          ("; filename=\"".data ++ fn ++ "\"".data) =
        ("form-data; name=\"".data ++ p.name ++ "\"".data ++
          "; filename=\"".data ++ fn) ++ ['"'] from by
        rw [show "\"".data = ['"'] from by decide]
        simp [List.append_assoc]]
      exact getLastD_concat_self _ '"' 'x'
  have hlast : pyWhitespace ((cdValue p).getLastD 'x') = false := by
    rw [hlastq]
    decide
  have hsh : cdLine p = "Content-Disposition".data ++ ':' :: (' ' :: cdValue p) := by
    unfold cdLine cdValue
    rw [show "Content-Disposition: form-data; name=\"".data =
      "Content-Disposition".data ++ ':' :: (' ' :: "form-data; name=\"".data) from by decide]
    simp [List.append_assoc]
  rw [hsh, pySplitOnceD_append ':' "Content-Disposition".data (' ' :: cdValue p) (by decide)]
  constructor
  · show pyStrip "Content-Disposition".data = "Content-Disposition".data
    decide
  · exact pyStrip_space_self (cdValue p) hvne hhead hlast

theorem ct_key_value (ct : List Char) (hct : safeCTB ct = true) :
    pyStrip (pySplitOnceD ':' ("Content-Type: ".data ++ ct)).1 = "Content-Type".data ∧
    pyStrip (pySplitOnceD ':' ("Content-Type: ".data ++ ct)).2 = ct := by
  obtain ⟨hne, -, hh, hl⟩ := safeCTB_spec ct hct
  have hsh : "Content-Type: ".data ++ ct = "Content-Type".data ++ ':' :: (' ' :: ct) := by
    rw [show "Content-Type: ".data = "Content-Type".data ++ (':' :: [' ']) from by decide]
    simp
  rw [hsh, pySplitOnceD_append ':' "Content-Type".data (' ' :: ct) (by decide)]
  refine ⟨?_, pyStrip_space_self ct hne hh hl⟩
  show pyStrip "Content-Type".data = "Content-Type".data
  decide

theorem ctLine_safe (ct : List Char) (hct : safeCTB ct = true) :
    ∀ c ∈ "Content-Type: ".data ++ ct, c ≠ '\r' ∧ c ≠ '\n' := by
  obtain ⟨-, hmem, -, -⟩ := safeCTB_spec ct hct
  intro c hc
  rcases List.mem_append.1 hc with hc | hc
  · exact ⟨fun h => by subst h; exact absurd hc (by decide),
      fun h => by subst h; exact absurd hc (by decide)⟩
  · exact ⟨(hmem c hc).2.1, (hmem c hc).2.2⟩

theorem hdrBytes_ne_nil (p : GenPartSpec) : hdrBytes p ≠ [] := by
  unfold hdrBytes
  intro hcon
  obtain ⟨-, h2⟩ := List.append_eq_nil.1 hcon
  exact absurd h2 (by decide)

/-- Parsing the generated header block yields the expected dictionary and
the position just past the blank line. -/
theorem parseHeaders_block (message : List Nat) (pos : Nat) (p : GenPartSpec)
    (rest : List Nat)
    (hdrop : message.drop pos = hdrBytes p ++ rest)
    (hname : safeNameB p.name = true)
    (hfn : p.filename.all safeNameB = true)
    (hct : p.contentType.all safeCTB = true) :
    parseHeaders true message pos = (some (specHeaders p), (hdrBytes p).length + pos) := by
  unfold parseHeaders
  cases hc : p.contentType with
  | none =>
    have hdrop1 : message.drop pos = utf8Encode (cdLine p) ++ (CRLFb ++ (CRLFb ++ rest)) := by
      rw [hdrop]
      unfold hdrBytes ctBytes
      rw [hc]
      simp [List.append_assoc]
    rw [parseHeadersLoop_header_step message pos (cdLine p) (CRLFb ++ rest) []
      (message.length + 1) hdrop1 (cdLine_safe p hname hfn) (cdLine_contains_colon p)
      (by omega)]
    rw [(cd_key_value p hname hfn).1, (cd_key_value p hname hfn).2, dictSet_nil]
    have hdrop2 : message.drop ((utf8Encode (cdLine p)).length + pos + 2) = CRLFb ++ rest :=
      drop_junction message (utf8Encode (cdLine p) ++ CRLFb) (CRLFb ++ rest) pos _
        (by rw [hdrop1]; simp [List.append_assoc])
        (by simp only [List.length_append, CRLFb, List.length_cons, List.length_nil]; omega)
    rw [parseHeadersLoop_blank_step message _ rest _ _ hdrop2 (by
      have hpos : pos < message.length :=
        pos_lt_of_drop_cons message pos (hdrBytes p) rest hdrop (hdrBytes_ne_nil p)
      omega)]
    unfold specHeaders hdrBytes ctBytes
    rw [hc]
    simp only [Prod.mk.injEq]
    constructor
    · trivial
    · simp only [List.length_append, CRLFb, List.length_cons, List.length_nil]
      omega
  | some ct =>
    have hcts : safeCTB ct = true := by
      rw [hc] at hct
      simpa using hct
    have hdrop1 : message.drop pos = utf8Encode (cdLine p) ++ (CRLFb ++
        (utf8Encode ("Content-Type: ".data ++ ct) ++ (CRLFb ++ (CRLFb ++ rest)))) := by
      rw [hdrop]
      unfold hdrBytes ctBytes
      rw [hc]
      simp [List.append_assoc]
    rw [parseHeadersLoop_header_step message pos (cdLine p)
      (utf8Encode ("Content-Type: ".data ++ ct) ++ (CRLFb ++ (CRLFb ++ rest))) []
      (message.length + 1) hdrop1 (cdLine_safe p hname hfn) (cdLine_contains_colon p)
      (by omega)]
    rw [(cd_key_value p hname hfn).1, (cd_key_value p hname hfn).2, dictSet_nil]
    have hpos : pos < message.length :=
      pos_lt_of_drop_cons message pos (hdrBytes p) rest hdrop (hdrBytes_ne_nil p)
    have hdrop2 : message.drop ((utf8Encode (cdLine p)).length + pos + 2) =
        utf8Encode ("Content-Type: ".data ++ ct) ++ (CRLFb ++ (CRLFb ++ rest)) :=
      drop_junction message (utf8Encode (cdLine p) ++ CRLFb) _ pos _
        (by rw [hdrop1]; simp [List.append_assoc])
        (by simp only [List.length_append, CRLFb, List.length_cons, List.length_nil]; omega)
    rw [parseHeadersLoop_header_step message _ ("Content-Type: ".data ++ ct)
      (CRLFb ++ rest) _ _ hdrop2 (ctLine_safe ct hcts)
      (by simp) (by omega)]
    rw [(ct_key_value ct hcts).1, (ct_key_value ct hcts).2]
    rw [dictSet_single_new _ _ _ _ (by decide)]
    have hdrop3 : message.drop ((utf8Encode ("Content-Type: ".data ++ ct)).length +
        ((utf8Encode (cdLine p)).length + pos + 2) + 2) = CRLFb ++ rest :=
      drop_junction message (utf8Encode ("Content-Type: ".data ++ ct) ++ CRLFb)
        (CRLFb ++ rest) ((utf8Encode (cdLine p)).length + pos + 2) _
        (by rw [hdrop2]; simp [List.append_assoc])
        (by simp only [List.length_append, CRLFb, List.length_cons, List.length_nil]; omega)
    have hpos3 : (utf8Encode ("Content-Type: ".data ++ ct)).length +
        ((utf8Encode (cdLine p)).length + pos + 2) + 2 < message.length :=
      pos_lt_of_drop_cons message _ CRLFb rest hdrop3 (by decide)
    rw [parseHeadersLoop_blank_step message _ rest _ _ hdrop3 (by omega)]
    unfold specHeaders hdrBytes ctBytes
    rw [hc]
    simp only [Prod.mk.injEq]
    constructor
    · trivial
    · simp only [List.length_append, CRLFb, List.length_cons, List.length_nil]
      omega


theorem pyStrip_self (s : List Char) (hne : s ≠ [])
    (hh : pyWhitespace (s.headD 'x') = false)
    (hl : pyWhitespace (s.getLastD 'x') = false) :
    pyStrip s = s := by
  cases hs : s with
  | nil => exact absurd hs hne
  | cons c0 t0 =>
    rw [hs] at hh hl
    simp only [List.headD_cons] at hh
    rcases List.eq_nil_or_concat t0 with rfl | ⟨mid, lastc, rfl⟩
    · simp only [List.getLastD_cons, List.getLastD_nil] at hl
      unfold pyStrip
      rw [show ([c0] : List Char) = [] ++ [c0] from rfl,
        pyStripRight_concat_not_ws _ _ hl]
      rw [show ([] : List Char) ++ [c0] = c0 :: [] from rfl,
        pyStripLeft_cons_not_ws _ _ hh]
    · rw [List.concat_eq_append] at hl ⊢
      have hlast : ((c0 :: (mid ++ [lastc])) : List Char).getLastD 'x' = lastc := by
        rw [show (c0 :: (mid ++ [lastc]) : List Char) = (c0 :: mid) ++ [lastc] from rfl]
        exact getLastD_concat_self (c0 :: mid) lastc 'x'
      rw [hlast] at hl
      exact pyStrip_sandwich c0 mid lastc hh hl

theorem findCI_specHeaders_cd (p : GenPartSpec) :
    findCI (specHeaders p) "content-disposition".data = some (cdValue p) := by
  unfold specHeaders
  cases hc : p.contentType with
  | none => exact findCI_cons_pos _ _ _ _ (by decide)
  | some ct => exact findCI_cons_pos _ _ _ _ (by decide)

theorem findCI_specHeaders_ct (p : GenPartSpec) :
    findCI (specHeaders p) "content-type".data = p.contentType := by
  unfold specHeaders
  cases hc : p.contentType with
  | none =>
    rw [findCI_cons_neg _ _ _ _ (by decide)]
    rfl
  | some ct =>
    rw [findCI_cons_neg _ _ _ _ (by decide)]
    exact findCI_cons_pos _ _ _ _ (by decide)

/-- The `Part` record the loop builds for a generated block equals
`specPart`. -/
theorem genRecord_eq (p : GenPartSpec)
    (hname : safeNameB p.name = true) (hfn : p.filename.all safeNameB = true)
    (hct : p.contentType.all safeCTB = true) :
    (⟨p.name, (parseContentDisposition (cdValue p)).filename,
      (parseContentDisposition (cdValue p)).filenameStar,
      (match findCI (specHeaders p) "content-type".data with
       | some v => some (pyStrip ((pySplitAll ';' v).headD []))
       | none => none),
      (match findCI (specHeaders p) "content-type".data with
       | some v => findCharset v
       | none => none),
      lowerHeaders (specHeaders p), p.body⟩ : Part) = specPart p := by
  rw [parseCD_cdValue p hname hfn, findCI_specHeaders_ct p]
  unfold specPart
  cases hc : p.contentType with
  | none => rfl
  | some ct =>
    obtain ⟨hne, hmem, hh, hl⟩ := safeCTB_spec ct (by rw [hc] at hct; simpa using hct)
    have hsplit : pySplitAll ';' ct = [ct] :=
      pySplitAll_no_sep ';' ct (fun hm => (hmem _ hm).1 rfl)
    dsimp only []
    rw [hsplit]
    simp only [List.headD_cons]
    rw [pyStrip_self ct hne hh hl]

/-- One full iteration of the part loop over a generated part block: the
part is recovered and control reaches the boundary dispatch at the
position after the part's trailing CRLF. -/
theorem parseLoop_iteration (delim closeDelim : List Nat) (message : List Nat)
    (p : GenPartSpec) (f pos : Nat) (parts : List Part) (tail : List Nat)
    (hdrop : message.drop pos = specBytes p ++ (CRLFb ++ (delim ++ tail)))
    (hsafe : SafeSpec delim p) :
    parseLoop true message delim closeDelim (f + 1) pos parts =
      (if bytesStartsWith (delim ++ tail) closeDelim = true then
        LoopExit.finished (parts ++ [(⟨p.name, (parseContentDisposition (cdValue p)).filename,
        (parseContentDisposition (cdValue p)).filenameStar,
        (match findCI (specHeaders p) "content-type".data with
         | some v => some (pyStrip ((pySplitAll ';' v).headD []))
         | none => none),
        (match findCI (specHeaders p) "content-type".data with
         | some v => findCharset v
         | none => none),
        lowerHeaders (specHeaders p), p.body⟩ : Part)])
      else if bytesStartsWith (delim ++ tail) delim = true then
        (match skipLineEnding true message
            (p.body.length + ((hdrBytes p).length + pos) + 2 + delim.length) with
        | none => LoopExit.finished (parts ++ [(⟨p.name, (parseContentDisposition (cdValue p)).filename,
        (parseContentDisposition (cdValue p)).filenameStar,
        (match findCI (specHeaders p) "content-type".data with
         | some v => some (pyStrip ((pySplitAll ';' v).headD []))
         | none => none),
        (match findCI (specHeaders p) "content-type".data with
         | some v => findCharset v
         | none => none),
        lowerHeaders (specHeaders p), p.body⟩ : Part)])
        | some newPos => parseLoop true message delim closeDelim f newPos
            (parts ++ [(⟨p.name, (parseContentDisposition (cdValue p)).filename,
        (parseContentDisposition (cdValue p)).filenameStar,
        (match findCI (specHeaders p) "content-type".data with
         | some v => some (pyStrip ((pySplitAll ';' v).headD []))
         | none => none),
        (match findCI (specHeaders p) "content-type".data with
         | some v => findCharset v
         | none => none),
        lowerHeaders (specHeaders p), p.body⟩ : Part)]))
      else LoopExit.result ⟨false, [], some "boundary_mismatch".data,
        some "Expected boundary not found".data⟩
        (parts ++ [(⟨p.name, (parseContentDisposition (cdValue p)).filename,
        (parseContentDisposition (cdValue p)).filenameStar,
        (match findCI (specHeaders p) "content-type".data with
         | some v => some (pyStrip ((pySplitAll ';' v).headD []))
         | none => none),
        (match findCI (specHeaders p) "content-type".data with
         | some v => findCharset v
         | none => none),
        lowerHeaders (specHeaders p), p.body⟩ : Part)])) := by
  obtain ⟨hname, hfn, hct, hbody⟩ := hsafe
  have hctne : p.contentType.all (fun ct => decide (ct ≠ [])) = true := by
    cases hc : p.contentType with
    | none => rfl
    | some ct =>
      rw [hc] at hct
      have := (safeCTB_spec ct (by simpa using hct)).1
      simpa using this
  have hdrop2 : message.drop pos = hdrBytes p ++ (p.body ++ (CRLFb ++ (delim ++ tail))) := by
    rw [hdrop, specBytes_eq p hfn hctne]
    simp [List.append_assoc]
  have hpos : pos < message.length :=
    pos_lt_of_drop_cons message pos (hdrBytes p) _ hdrop2 (hdrBytes_ne_nil p)
  have hdropHE : message.drop ((hdrBytes p).length + pos) =
      p.body ++ (CRLFb ++ (delim ++ tail)) :=
    drop_junction message (hdrBytes p) _ pos _ hdrop2 rfl
  have hdropBE : message.drop (p.body.length + ((hdrBytes p).length + pos)) =
      CRLFb ++ (delim ++ tail) :=
    drop_junction message p.body _ ((hdrBytes p).length + pos) _ hdropHE rfl
  have hdropP2 : message.drop (p.body.length + ((hdrBytes p).length + pos) + 2) =
      delim ++ tail :=
    drop_junction message CRLFb _ (p.body.length + ((hdrBytes p).length + pos)) _ hdropBE
      (by simp only [CRLFb, List.length_cons, List.length_nil]; omega)
  have hfnb : findNextBoundary true message ((hdrBytes p).length + pos) delim =
      some (p.body.length + ((hdrBytes p).length + pos)) := by
    unfold findNextBoundary
    dsimp only []
    have hfind : pyFind message (CRLFb ++ delim) ((hdrBytes p).length + pos) =
        some (p.body.length + ((hdrBytes p).length + pos)) := by
      refine pyFind_decomp message (CRLFb ++ delim) _ p.body (CRLFb ++ (delim ++ tail))
        hdropHE ?_ ?_
      · rw [show CRLFb ++ (delim ++ tail) = (CRLFb ++ delim) ++ tail from
          (List.append_assoc _ _ _).symm]
        exact List.prefix_append _ _
      · intro m hm hocc
        have hX : p.body ++ (CRLFb ++ (delim ++ tail)) =
            (p.body ++ CRLFb ++ delim) ++ tail := by
          simp [List.append_assoc]
        rw [hX] at hocc
        have hres : OccursAt (p.body ++ CRLFb ++ delim) (CRLFb ++ delim) m := by
          refine occursAt_restrict _ _ _ _ ?_ hocc
          simp only [List.length_append, CRLFb, List.length_cons, List.length_nil]
          omega
        exact hbody m hm hres
    rw [hfind]
    rw [if_neg (show ¬ ¬ (true = true) from not_not_intro rfl)]
  have hsliceCRLF : pySlice message (p.body.length + ((hdrBytes p).length + pos))
      (p.body.length + ((hdrBytes p).length + pos) + 2) = CRLFb := by
    have h := pySlice_of_drop message _ CRLFb (delim ++ tail) hdropBE
    rwa [show (CRLFb : List Nat).length + (p.body.length + ((hdrBytes p).length + pos)) =
      p.body.length + ((hdrBytes p).length + pos) + 2 from by
        simp only [CRLFb, List.length_cons, List.length_nil]; omega] at h
  have hslice : pySlice message ((hdrBytes p).length + pos)
      (p.body.length + ((hdrBytes p).length + pos)) = p.body :=
    pySlice_of_drop message _ p.body _ hdropHE
  rw [parseLoop]
  rw [if_pos hpos]
  rw [parseHeaders_block message pos p _ hdrop2 hname hfn hct]
  dsimp only []
  have hcd : findCI (specHeaders p)
      ['c', 'o', 'n', 't', 'e', 'n', 't', '-', 'd', 'i', 's', 'p', 'o', 's', 'i',
        't', 'i', 'o', 'n'] = some (cdValue p) := by
    show findCI (specHeaders p) "content-disposition".data = some (cdValue p)
    exact findCI_specHeaders_cd p
  rw [hcd]
  dsimp only []
  have hnmv : (parseContentDisposition (cdValue p)).name = some p.name := by
    rw [parseCD_cdValue p hname hfn]
  rw [hnmv]
  dsimp only []
  rw [hfnb]
  dsimp only []
  rw [hslice, if_pos hsliceCRLF, hdropP2]

/-- The part loop consumes every remaining generated part and finishes
with the expected part list. -/
theorem parseLoop_gen (delim message : List Nat) :
    ∀ (specs : List GenPartSpec) (p : GenPartSpec) (f pos : Nat) (parts : List Part),
    message.drop pos = specBytes p ++ (CRLFb ++ (delim ++ msgRest delim specs)) →
    SafeSpec delim p →
    (∀ q ∈ specs, SafeSpec delim q) →
    specs.length < f →
    parseLoop true message delim (delim ++ [45, 45]) f pos parts =
      LoopExit.finished (parts ++ (p :: specs).map specPart) := by
  intro specs
  induction specs with
  | nil =>
    intro p f pos parts hdrop hp hall hf
    cases f with
    | zero => omega
    | succ f =>
      rw [parseLoop_iteration delim (delim ++ [45, 45]) message p f pos parts
        (msgRest delim []) hdrop hp]
      have hcd : bytesStartsWith (delim ++ msgRest delim []) (delim ++ [45, 45]) = true := by
        unfold bytesStartsWith
        rw [List.isPrefixOf_iff_prefix, msgRest]
        rw [show delim ++ ([45, 45] ++ CRLFb) = (delim ++ [45, 45]) ++ CRLFb from
          (List.append_assoc _ _ _).symm]
        exact List.prefix_append _ _
      rw [if_pos hcd]
      rw [genRecord_eq p hp.1 hp.2.1 hp.2.2.1]
      rfl
  | cons q rest ih =>
    intro p f pos parts hdrop hp hall hf
    cases f with
    | zero =>
      simp at hf
    | succ f =>
      rw [parseLoop_iteration delim (delim ++ [45, 45]) message p f pos parts
        (msgRest delim (q :: rest)) hdrop hp]
      have hncd : ¬ (bytesStartsWith (delim ++ msgRest delim (q :: rest))
          (delim ++ [45, 45]) = true) := by
        unfold bytesStartsWith
        rw [List.isPrefixOf_iff_prefix, msgRest]
        rw [List.prefix_append_right_inj]
        intro hpre
        rw [show (CRLFb : List Nat) ++ (specBytes q ++ (CRLFb ++ (delim ++ msgRest delim rest))) =
          13 :: (10 :: (specBytes q ++ (CRLFb ++ (delim ++ msgRest delim rest)))) from rfl] at hpre
        exact absurd (List.cons_prefix_cons.1 hpre).1 (by decide)
      rw [if_neg hncd]
      have hdl : bytesStartsWith (delim ++ msgRest delim (q :: rest)) delim = true := by
        unfold bytesStartsWith
        rw [List.isPrefixOf_iff_prefix]
        exact List.prefix_append _ _
      rw [if_pos hdl]
      have hctne : p.contentType.all (fun ct => decide (ct ≠ [])) = true := by
        cases hc : p.contentType with
        | none => rfl
        | some ct =>
          have h2 := hp.2.2.1
          rw [hc] at h2
          have := (safeCTB_spec ct (by simpa using h2)).1
          simpa using this
      have hdrop2 : message.drop pos =
          hdrBytes p ++ (p.body ++ (CRLFb ++ (delim ++ msgRest delim (q :: rest)))) := by
        rw [hdrop, specBytes_eq p hp.2.1 hctne]
        simp [List.append_assoc]
      have hdropHE := drop_junction message (hdrBytes p) _ pos _ hdrop2 rfl
      have hdropBE := drop_junction message p.body _ ((hdrBytes p).length + pos) _ hdropHE rfl
      have hdropP2 : message.drop (p.body.length + ((hdrBytes p).length + pos) + 2) =
          delim ++ msgRest delim (q :: rest) :=
        drop_junction message CRLFb _ (p.body.length + ((hdrBytes p).length + pos)) _
          hdropBE (by simp only [CRLFb, List.length_cons, List.length_nil]; omega)
      have hdropSkip : message.drop
          (p.body.length + ((hdrBytes p).length + pos) + 2 + delim.length) =
          msgRest delim (q :: rest) :=
        drop_junction message delim _ (p.body.length + ((hdrBytes p).length + pos) + 2) _
          hdropP2 (by omega)
      have hskip : skipLineEnding true message
          (p.body.length + ((hdrBytes p).length + pos) + 2 + delim.length) =
          some (p.body.length + ((hdrBytes p).length + pos) + 2 + delim.length + 2) := by
        refine skipLineEnding_crlf true message _
          (specBytes q ++ (CRLFb ++ (delim ++ msgRest delim rest))) ?_
        rw [hdropSkip, msgRest]
      rw [hskip]
      rw [genRecord_eq p hp.1 hp.2.1 hp.2.2.1]
      dsimp only []
      have hdropNext : message.drop
          (p.body.length + ((hdrBytes p).length + pos) + 2 + delim.length + 2) =
          specBytes q ++ (CRLFb ++ (delim ++ msgRest delim rest)) := by
        have h2 : message.drop
            (p.body.length + ((hdrBytes p).length + pos) + 2 + delim.length) =
            CRLFb ++ (specBytes q ++ (CRLFb ++ (delim ++ msgRest delim rest))) := by
          rw [hdropSkip, msgRest]
        exact drop_junction message CRLFb _ _ _ h2
          (by simp only [CRLFb, List.length_cons, List.length_nil]; omega)
      rw [ih q f (p.body.length + ((hdrBytes p).length + pos) + 2 + delim.length + 2)
        (parts ++ [specPart p]) hdropNext (hall q (List.mem_cons_self q rest))
        (fun r hr => hall r (List.mem_cons_of_mem q hr)) (by simp at hf; omega)]
      simp [List.append_assoc]


/-- Claim C3 amended: the round trip holds for nonempty specifications
whose parts are safe — names and filenames free of quotes, backslashes and
CR/LF; content types nonempty, free of semicolons and CR/LF, with
non-whitespace ends; bodies never containing `CRLF ++ delimiter` before
their end.  The empty specification and unsafe parts are excluded by the
counterexample. -/
theorem parse_c3_amended (boundary : List Char) (specs : List GenPartSpec)
    (hb : (validateBoundary boundary).1 = true)
    (hne : specs ≠ [])
    (hsafe : ∀ p ∈ specs, SafeSpec (utf8Encode ("--".data ++ boundary)) p) :
    (parse true (genOutput boundary specs) boundary).valid = true ∧
    (parse true (genOutput boundary specs) boundary).parts.map partFields =
      specs.map specFields := by
  have hbne : boundary ≠ [] := by
    intro hcon
    rw [hcon] at hb
    exact absurd hb (by decide)
  cases specs with
  | nil => exact absurd rfl hne
  | cons p rest =>
    have hmain : parseWithEmitted true (genOutput boundary (p :: rest)) boundary =
        (⟨true, [] ++ (p :: rest).map specPart, none, none⟩,
          [] ++ (p :: rest).map specPart) := by
      unfold parseWithEmitted
      rw [if_neg hbne]
      dsimp only []
      have hfind : pyFind (genOutput boundary (p :: rest))
          (utf8Encode ("--".data ++ boundary)) 0 = some 0 := by
        have h := pyFind_decomp (genOutput boundary (p :: rest))
          (utf8Encode ("--".data ++ boundary)) 0 [] (genOutput boundary (p :: rest))
          (by simp)
          (by rw [genOutput_msgRest boundary (p :: rest)]; exact List.prefix_append _ _)
          (by intro m hm; simp at hm)
        simpa using h
      rw [hfind]
      dsimp only []
      have hskip : skipLineEnding true (genOutput boundary (p :: rest))
          (0 + (utf8Encode ("--".data ++ boundary)).length) =
          some (0 + (utf8Encode ("--".data ++ boundary)).length + 2) := by
        refine skipLineEnding_crlf true _ _
          (specBytes p ++ (CRLFb ++ (utf8Encode ("--".data ++ boundary) ++
            msgRest (utf8Encode ("--".data ++ boundary)) rest))) ?_
        rw [genOutput_msgRest boundary (p :: rest)]
        rw [show 0 + (utf8Encode ("--".data ++ boundary)).length =
          (utf8Encode ("--".data ++ boundary)).length from by omega]
        rw [List.drop_left, msgRest]
      rw [hskip]
      dsimp only []
      have hdropStart : (genOutput boundary (p :: rest)).drop
          (0 + (utf8Encode ("--".data ++ boundary)).length + 2) =
          specBytes p ++ (CRLFb ++ (utf8Encode ("--".data ++ boundary) ++
            msgRest (utf8Encode ("--".data ++ boundary)) rest)) := by
        rw [genOutput_msgRest boundary (p :: rest)]
        refine drop_junction _ (utf8Encode ("--".data ++ boundary) ++ CRLFb) _ 0 _ ?_
          (by simp only [List.length_append, CRLFb, List.length_cons, List.length_nil]
              omega)
        rw [List.drop_zero, msgRest]
        simp [List.append_assoc]
      rw [closeDelim_eq boundary]
      have hfuel : rest.length < (genOutput boundary (p :: rest)).length + 1 := by
        have h1 := msgRest_length_ge (utf8Encode ("--".data ++ boundary)) (p :: rest)
        have h2 : (genOutput boundary (p :: rest)).length =
            (utf8Encode ("--".data ++ boundary)).length +
            (msgRest (utf8Encode ("--".data ++ boundary)) (p :: rest)).length := by
          rw [genOutput_msgRest boundary (p :: rest)]
          simp
        rw [List.length_cons] at h1
        omega
      rw [parseLoop_gen (utf8Encode ("--".data ++ boundary))
        (genOutput boundary (p :: rest)) rest p
        ((genOutput boundary (p :: rest)).length + 1)
        (0 + (utf8Encode ("--".data ++ boundary)).length + 2) [] hdropStart
        (hsafe p (List.mem_cons_self p rest))
        (fun r hr => hsafe r (List.mem_cons_of_mem p hr)) hfuel]
      dsimp only []
      have hcontains : containsSub (genOutput boundary (p :: rest))
          (utf8Encode ("--".data ++ boundary) ++ [45, 45]) = true := by
        apply containsSub_of_occursAt
        rw [genOutput_msgRest boundary (p :: rest)]
        exact msgRest_contains_close _ _
      rw [if_neg (not_not_intro hcontains)]
    constructor
    · show (parseWithEmitted true (genOutput boundary (p :: rest)) boundary).1.valid = true
      rw [hmain]
    · show ((parseWithEmitted true (genOutput boundary (p :: rest)) boundary).1.parts).map
        partFields = (p :: rest).map specFields
      rw [hmain]
      dsimp only []
      rw [List.nil_append, List.map_map]
      apply List.map_congr_left
      intro s hs
      rfl

/-- Witness for parse_c3_amended: boundary "B" and a single safe part
named "x" with body "hello"; all hypotheses hold and the round trip
recovers the part. -/
theorem parse_c3_witness :
    (validateBoundary "B".data).1 = true ∧
    ([⟨"x".data, none, none, [104, 101, 108, 108, 111]⟩] : List GenPartSpec) ≠ [] ∧
    (∀ p ∈ ([⟨"x".data, none, none, [104, 101, 108, 108, 111]⟩] : List GenPartSpec),
      SafeSpec (utf8Encode ("--".data ++ "B".data)) p) ∧
    ((parse true (genOutput "B".data [⟨"x".data, none, none, [104, 101, 108, 108, 111]⟩])
        "B".data).valid = true ∧
      (parse true (genOutput "B".data [⟨"x".data, none, none, [104, 101, 108, 108, 111]⟩])
        "B".data).parts.map partFields =
        ([⟨"x".data, none, none, [104, 101, 108, 108, 111]⟩] :
          List GenPartSpec).map specFields) :=
  ⟨by decide, by decide, by decide,
    parse_c3_amended "B".data [⟨"x".data, none, none, [104, 101, 108, 108, 111]⟩]
      (by decide) (by decide) (by decide)⟩

end Multipart
